import Mathlib

/-!
# Remote IPAM delegation: client, server dispatcher and resolv.conf parser

A shallow embedding of `plugins/ipam/remote/main.go` (the client plugin) and
`plugins/ipam/remote/server/main.go` (the HTTP server and `parseResolvConf`).

Library code that the two files call but do not contain is taken as an
interface:

* `bufio.Scanner` over an opened file is a `File`: the lines that successive
  `Scan()`/`Text()` calls deliver, and the value of `Err()` after the loop (a
  read failure, or a line beyond the scanner's token limit, is such an error);
  `bufio.scan` is the `File` of a text that is read without read failure;
* the host-local allocator is an `Allocator` over an abstract store, and every
  call the handler makes to it is recorded in a call log;
* `json.Marshal`, `json.Unmarshal`, `types.PrintResult` and the `%q` verb are
  fields of `ServerEnv` / `ClientEnv`;
* `http.Client.Get` is a `Transport`, given the remote and the query values
  that `fmt.Sprintf("%s?%s", ...)` joins into the URL; `url.Values` is an
  ordered list of key/value pairs, and `Values.Encode`, the `RawQuery` of a
  URL and `ParseQuery` are modelled on the UTF-8 bytes of the strings.

Go strings are modelled by Lean strings (valid UTF-8 text).
-/

namespace RemoteIPAM

/-! ## Go `unicode` and `strings` -/

namespace unicode

/-- Go `unicode.IsSpace`: the Latin-1 spaces and the code points with the
White_Space property. -/
def IsSpace (c : Char) : Bool :=
  let n := c.toNat
  n == 0x09 || n == 0x0A || n == 0x0B || n == 0x0C || n == 0x0D || n == 0x20 ||
  n == 0x85 || n == 0xA0 || n == 0x1680 || (0x2000 ≤ n && n ≤ 0x200A) ||
  n == 0x2028 || n == 0x2029 || n == 0x202F || n == 0x205F || n == 0x3000

end unicode

namespace strings

/-- Characters of `strings.TrimSpace s`: leading and trailing white space removed. -/
def trimSpaceChars (l : List Char) : List Char :=
  ((l.dropWhile unicode.IsSpace).reverse.dropWhile unicode.IsSpace).reverse

/-- Go `strings.TrimSpace`. -/
def TrimSpace (s : String) : String := String.mk (trimSpaceChars s.data)

/-- Scanning loop of `strings.Fields`: `cur` holds the characters of the field
being read, most recent first. -/
def fieldsLoop : List Char → List Char → List String
  | [], cur => if cur.isEmpty then [] else [String.mk cur.reverse]
  | c :: cs, cur =>
    if unicode.IsSpace c then
      (if cur.isEmpty then fieldsLoop cs [] else String.mk cur.reverse :: fieldsLoop cs [])
    else fieldsLoop cs (c :: cur)

/-- Go `strings.Fields`: the maximal runs of non-space characters, in order. -/
def Fields (s : String) : List String := fieldsLoop s.data []

end strings

/-! ## CNI types -/

/-- CNI `types.DNS`. -/
structure DNS where
  Nameservers : List String := []
  Domain : String := ""
  Search : List String := []
  Options : List String := []
deriving DecidableEq, Repr

/-- CNI `types.Route`. -/
structure Route where
  Dst : String
  GW : String
deriving DecidableEq, Repr

/-- CNI `current.IPConfig`. -/
structure IPConfig where
  Version : String
  Interface : Option Int
  Address : String
  Gateway : String
deriving DecidableEq, Repr

/-- CNI `current.Interface`. -/
structure Interface where
  Name : String
  Mac : String
  Sandbox : String
deriving DecidableEq, Repr

/-- CNI `current.Result`; `&current.Result{}` is the default value. -/
structure Result where
  CNIVersion : String := ""
  Interfaces : List Interface := []
  IPs : List IPConfig := []
  Routes : List Route := []
  DNS : DNS := {}
deriving DecidableEq, Repr

/-- Host-local `allocator.Range`. -/
structure Range where
  RangeStart : String
  RangeEnd : String
  Subnet : String
  Gateway : String
deriving DecidableEq, Repr

/-- Host-local `allocator.RangeSet`. -/
abbrev RangeSet := List Range

/-! ## `parseResolvConf` -/

/-- An opened file as `bufio.Scanner` presents it: the lines delivered by
`Scan()`/`Text()` and the value of `Err()` once `Scan()` has returned false. -/
structure File where
  lines : List String
  err : Option String
deriving DecidableEq, Repr

/-- Body of the `for scanner.Scan()` loop of `parseResolvConf` for one line. -/
def parseLine (dns : DNS) (text : String) : DNS :=
  let line := strings.TrimSpace text
  match line.data with
  | [] => dns
  | c :: _ =>
    if c = '#' ∨ c = ';' then dns
    else
      let fields := strings.Fields line
      if fields.length < 2 then dns
      else
        match fields with
        | f0 :: f1 :: rest =>
          if f0 = "nameserver" then { dns with Nameservers := dns.Nameservers ++ [f1] }
          else if f0 = "domain" then { dns with Domain := f1 }
          else if f0 = "search" then { dns with Search := dns.Search ++ (f1 :: rest) }
          else if f0 = "options" then { dns with Options := dns.Options ++ (f1 :: rest) }
          else dns
        | _ => dns

/-- The whole scanning loop, started from `types.DNS{}`. -/
def scanAll (lines : List String) : DNS := lines.foldl parseLine {}

/-- Go `parseResolvConf`; `osOpen` is `os.Open` followed by the scanner. -/
def parseResolvConf (osOpen : String → Except String File) (filename : String) :
    Except String DNS :=
  match osOpen filename with
  | .error e => .error e
  | .ok fp =>
    let dns := scanAll fp.lines
    match fp.err with
    | some e => .error e
    | none => .ok dns

/-! ### Reading a resolver file by its fields -/

/-- The argument of a directive line: the second white-space separated field
of `line`, when its first field is `keyword` and a second field exists. -/
def directiveArg (keyword : String) (line : String) : Option String :=
  match strings.Fields line with
  | f0 :: f1 :: _ => if f0 = keyword then some f1 else none
  | _ => none

/-- A line that is empty, white space only, or whose first non-space character
is `#` or `;`. -/
def isBlankOrComment (line : String) : Bool :=
  match line.data.dropWhile unicode.IsSpace with
  | [] => true
  | c :: _ => c == '#' || c == ';'

/-- What one line does to the DNS block, read off its fields alone. -/
def applyFields (dns : DNS) (fields : List String) : DNS :=
  match fields with
  | f0 :: f1 :: rest =>
    if f0 = "nameserver" then { dns with Nameservers := dns.Nameservers ++ [f1] }
    else if f0 = "domain" then { dns with Domain := f1 }
    else if f0 = "search" then { dns with Search := dns.Search ++ (f1 :: rest) }
    else if f0 = "options" then { dns with Options := dns.Options ++ (f1 :: rest) }
    else dns
  | _ => dns

/-- A line whose first white-space separated field is `nameserver`. -/
def isNameserverLine (line : String) : Bool :=
  (strings.Fields line).head? == some "nameserver"

/-! ## `bufio.Scanner` over the lines of a file -/

namespace bufio

/-- Go `bufio.MaxScanTokenSize`: the size of the largest buffer a `Scanner`
made by `NewScanner` allocates. -/
def MaxScanTokenSize : Nat := 64 * 1024

/-- Go `bufio` `dropCR`: a trailing carriage return is not part of the line. -/
def dropCR (data : String) : String :=
  if data.data.getLast? = some '\r' then String.mk data.data.dropLast else data

/-- What `bufio.NewScanner(fp)` with the default `ScanLines` split delivers for
a file whose text between line feeds is `lines`: each line without its carriage
return, up to the first line that does not fit the buffer, where scanning stops
with `ErrTooLong`. -/
def scan : List String → File
  | [] => { lines := [], err := none }
  | l :: ls =>
    if MaxScanTokenSize ≤ l.utf8ByteSize then
      { lines := [], err := some "bufio.Scanner: token too long" }
    else { lines := dropCR l :: (scan ls).lines, err := (scan ls).err }

end bufio

/-- Go `os.Open` and `bufio.NewScanner` over a disk that maps a path to an
open error or to the lines of the file. -/
def openOn (disk : String → Except String (List String)) (filename : String) :
    Except String File :=
  match disk filename with
  | .error e => .error e
  | .ok lines => .ok (bufio.scan lines)

/-- A blank or comment line that fits the scanner's buffer. -/
def isShortBlankOrComment (line : String) : Bool :=
  isBlankOrComment line && decide (line.utf8ByteSize < bufio.MaxScanTokenSize)

/-! ## UTF-8 -/

namespace utf8

/-- The UTF-8 bytes of a character: a Go string holds these bytes. -/
def encodeChar (c : Char) : List Nat :=
  let n := c.toNat
  if n < 0x80 then [n]
  else if n < 0x800 then [0xC0 + n / 64, 0x80 + n % 64]
  else if n < 0x10000 then [0xE0 + n / 4096, 0x80 + n / 64 % 64, 0x80 + n % 64]
  else [0xF0 + n / 262144, 0x80 + n / 4096 % 64, 0x80 + n / 64 % 64, 0x80 + n % 64]

/-- The bytes of a Go string. -/
def encode (s : List Char) : List Nat := (s.map encodeChar).flatten

/-- Reading bytes back as characters: `need` continuation bytes are still
expected for the character whose high bits are `acc`. -/
def decodeLoop : List Nat → Nat → Nat → List Char
  | [], _, _ => []
  | b :: bs, 0, _ =>
    if b < 0x80 then Char.ofNat b :: decodeLoop bs 0 0
    else if b < 0xE0 then decodeLoop bs 1 (b - 0xC0)
    else if b < 0xF0 then decodeLoop bs 2 (b - 0xE0)
    else decodeLoop bs 3 (b - 0xF0)
  | b :: bs, k + 1, acc =>
    if k = 0 then Char.ofNat (acc * 64 + (b - 0x80)) :: decodeLoop bs 0 0
    else decodeLoop bs k (acc * 64 + (b - 0x80))

/-- The text a byte sequence holds. -/
def decode (bs : List Nat) : List Char := decodeLoop bs 0 0

end utf8

/-! ## `net/url` and `net/http` -/

namespace url

/-- Go `url.Values`, as the list of key/value pairs in the order they were added. -/
abbrev Values := List (String × String)

/-- Go `Values.Get`: the first value of `key`, or the empty string. -/
def Values.Get (v : Values) (key : String) : String :=
  match v.find? (fun kv => kv.1 == key) with
  | some kv => kv.2
  | none => ""

/-- Go `Values.Add`. -/
def Values.Add (v : Values) (key value : String) : Values := v ++ [(key, value)]

/-- Go `shouldEscape(c, encodeQueryComponent)`: everything but letters, digits
and `-`, `_`, `.`, `~` is escaped. -/
def shouldEscape (c : Nat) : Bool :=
  if (97 ≤ c && c ≤ 122) || (65 ≤ c && c ≤ 90) || (48 ≤ c && c ≤ 57) then false
  else if c = 45 || c = 95 || c = 46 || c = 126 then false
  else true

/-- Go `upperhex[d]`, the byte of `"0123456789ABCDEF"` at `d`. -/
def upperhex (d : Nat) : Nat := if d < 10 then 48 + d else 55 + d

/-- What Go `escape(s, encodeQueryComponent)` writes for one byte. -/
def escapeByte (c : Nat) : List Nat :=
  if shouldEscape c then
    (if c = 32 then [43] else [37, upperhex (c / 16), upperhex (c % 16)])
  else [c]

/-- Go `url.QueryEscape`. -/
def QueryEscape (s : String) : String :=
  String.mk (((utf8.encode s.data).map escapeByte).flatten.map Char.ofNat)

/-- Go `ishex`. -/
def ishex (c : Nat) : Bool :=
  (48 ≤ c && c ≤ 57) || (97 ≤ c && c ≤ 102) || (65 ≤ c && c ≤ 70)

/-- Go `unhex`. -/
def unhex (c : Nat) : Nat :=
  if 48 ≤ c && c ≤ 57 then c - 48
  else if 97 ≤ c && c ≤ 102 then c - 97 + 10
  else if 65 ≤ c && c ≤ 70 then c - 65 + 10
  else 0

/-- Go `unescape(s, encodeQueryComponent)` on bytes: `%XX` is the byte `XX`,
`+` is a space, and a `%` not followed by two hex digits is an error. -/
def unescape : List Nat → Option (List Nat)
  | [] => some []
  | c :: rest =>
    if c = 37 then
      match rest with
      | h :: l :: rest' =>
        if ishex h && ishex l then (unescape rest').map (fun bs => (unhex h * 16 + unhex l) :: bs)
        else none
      | _ => none
    else if c = 43 then (unescape rest).map (fun bs => 32 :: bs)
    else (unescape rest).map (fun bs => c :: bs)

/-- Go `url.QueryUnescape`; `none` is the error. -/
def QueryUnescape (s : List Char) : Option String :=
  (unescape (utf8.encode s)).map (fun bs => String.mk (utf8.decode bs))

/-- Go `strings.Cut(s, sep)` for a one-byte separator: the text before the
first `sep` and the text after it (empty when there is no `sep`). -/
def cut (sep : Char) : List Char → List Char × List Char
  | [] => ([], [])
  | c :: cs => if c = sep then ([], cs) else ((c :: (cut sep cs).1), (cut sep cs).2)

/-- The pieces of `s` between the characters that satisfy `p`; `cur` holds the
piece being read, most recent character first. -/
def splitOn (p : Char → Bool) : List Char → List Char → List (List Char)
  | [], cur => [cur.reverse]
  | c :: cs, cur => if p c then cur.reverse :: splitOn p cs [] else splitOn p cs (c :: cur)

/-- One `key=value` piece of a query, as the loop of Go `parseQuery` reads it:
an empty piece and a piece that does not unescape add nothing. -/
def parsePiece (piece : List Char) : Option (String × String) :=
  if piece = [] then none
  else
    match QueryUnescape (cut '=' piece).1, QueryUnescape (cut '=' piece).2 with
    | some key, some value => some (key, value)
    | _, _ => none

/-- Go `url.ParseQuery` with its error dropped, as `URL.Query()` does. With
`semicolons` set, `;` separates pieces like `&` (Go before 1.17); otherwise a
piece that holds a `;` adds nothing (Go 1.17 and later). -/
def ParseQuery (semicolons : Bool) (query : String) : Values :=
  (splitOn (fun c => c == '&' || (semicolons && c == ';')) query.data []).filterMap
    (fun piece =>
      if !semicolons && piece.any (fun c => c == ';') then none else parsePiece piece)

/-- The pieces joined by `&`. -/
def joinPieces : List (List Char) → List Char
  | [] => []
  | [p] => p
  | p :: ps => p ++ '&' :: joinPieces ps

/-- Go string comparison `a <= b`: byte by byte. -/
def bytesLE : List Nat → List Nat → Bool
  | [], _ => true
  | _ :: _, [] => false
  | a :: as, b :: bs => a < b || (a == b && bytesLE as bs)

/-- The order `sort.Strings` puts keys in. -/
def keyLE (a b : String × String) : Bool :=
  bytesLE (utf8.encode a.1.data) (utf8.encode b.1.data)

/-- What Go `Values.Encode` writes for one pair: `key=value`, both escaped. -/
def encodePair (kv : String × String) : List Char :=
  (QueryEscape kv.1).data ++ '=' :: (QueryEscape kv.2).data

/-- Go `Values.Encode`: the pairs sorted by key, each written `key=value` with
both sides escaped, joined by `&`. -/
def Values.Encode (v : Values) : String :=
  String.mk (joinPieces ((v.insertionSort (fun a b => keyLE a b = true)).map encodePair))

/-- The `RawQuery` Go `url.Parse` finds in a URL: what follows the first `?`
of the text before the first `#`. -/
def rawQuery (rawURL : String) : String :=
  String.mk (cut '?' (cut '#' rawURL.data).1).2

end url

namespace http

/-- The state of an `http.ResponseWriter` while the handler runs: the header
map, whether the status line has gone out, and what went out. -/
structure ResponseWriter where
  header : List (String × String) := []
  wroteHeader : Bool := false
  status : Nat := 0
  sent : List (String × String) := []
  body : String := ""
deriving DecidableEq, Repr

/-- Go `w.WriteHeader(code)`: the first call fixes the status and the headers
that are sent; later calls are ignored. -/
def ResponseWriter.WriteHeader (w : ResponseWriter) (code : Nat) : ResponseWriter :=
  if w.wroteHeader then w
  else { w with wroteHeader := true, status := code, sent := w.header }

/-- Go `w.Write(data)`: sends status 200 first when no status has gone out. -/
def ResponseWriter.Write (w : ResponseWriter) (data : String) : ResponseWriter :=
  let w1 := w.WriteHeader 200
  { w1 with body := w1.body ++ data }

/-- Go `w.Header().Set(key, value)`. -/
def ResponseWriter.HeaderSet (w : ResponseWriter) (key value : String) : ResponseWriter :=
  { w with header := (key, value) :: w.header.filter (fun kv => kv.1 != key) }

/-- What the client receives. -/
structure Response where
  StatusCode : Nat
  Header : List (String × String)
  Body : String
deriving DecidableEq, Repr

/-- The response once the handler has returned: a handler that never wrote a
status gets 200. -/
def ResponseWriter.finish (w : ResponseWriter) : Response :=
  let w1 := w.WriteHeader 200
  { StatusCode := w1.status, Header := w1.sent, Body := w1.body }

def StatusOK : Nat := 200
def StatusBadRequest : Nat := 400
def StatusNotFound : Nat := 404
def StatusInternalServerError : Nat := 500

end http

/-! ## The allocator and the store -/

/-- The two operations of host-local `allocator.IPAllocator` the server uses,
over a store of type `σ`; the range set is the one given to `NewIPAllocator`. -/
structure Allocator (σ : Type) where
  Get : RangeSet → σ → String → Except String IPConfig × σ
  Release : RangeSet → σ → String → Option String × σ

/-- A call made to the allocator. -/
inductive AllocCall where
  | get (rangeSet : RangeSet) (id : String)
  | release (rangeSet : RangeSet) (id : String)
deriving DecidableEq, Repr

/-- The store together with the log of allocator calls made so far. -/
structure World (σ : Type) where
  store : σ
  calls : List AllocCall

/-! ## The server -/

namespace server

/-- Server `IPAMConfig`. -/
structure IPAMConfig where
  Ranges : List (String × RangeSet)
  DataDir : String
  ResolveConf : String
  Routes : List Route
deriving DecidableEq, Repr

/-- Library code and resources the handler uses. -/
structure ServerEnv (σ : Type) where
  osOpen : String → Except String File
  allocator : Allocator σ
  marshal : Result → Except String String

/-- Go `allocator.Get(containerid, nil)` on a fresh `NewIPAllocator(&rangeSet, store, 0)`. -/
def allocGet {σ : Type} (env : ServerEnv σ) (rangeSet : RangeSet) (id : String)
    (st : World σ) : Except String IPConfig × World σ :=
  let r := env.allocator.Get rangeSet st.store id
  (r.1, { store := r.2, calls := st.calls ++ [AllocCall.get rangeSet id] })

/-- Go `allocator.Release(containerid)` on a fresh `NewIPAllocator(&rangeSet, store, 0)`. -/
def allocRelease {σ : Type} (env : ServerEnv σ) (rangeSet : RangeSet) (id : String)
    (st : World σ) : Option String × World σ :=
  let r := env.allocator.Release rangeSet st.store id
  (r.1, { store := r.2, calls := st.calls ++ [AllocCall.release rangeSet id] })

/-- The `case "add"` branch of the handler. -/
def handleAdd {σ : Type} (env : ServerEnv σ) (ipamConf : IPAMConfig) (rangeSet : RangeSet)
    (containerid : String) (w : http.ResponseWriter) (st : World σ) :
    http.ResponseWriter × World σ :=
  let result : Result := {}
  let parsed : Except String Result :=
    if ipamConf.ResolveConf ≠ "" then
      match parseResolvConf env.osOpen ipamConf.ResolveConf with
      | .error err => .error err
      | .ok dns => .ok { result with DNS := dns }
    else .ok result
  match parsed with
  | .error err =>
    let w := w.WriteHeader http.StatusInternalServerError
    (w.Write ("failed to parse " ++ ipamConf.ResolveConf ++ ": " ++ err), st)
  | .ok result =>
    match allocGet env rangeSet containerid st with
    | (.error err, st) =>
      let w := w.WriteHeader http.StatusInternalServerError
      (w.Write ("failed to allocate: " ++ err), st)
    | (.ok ipConf, st) =>
      let result := { result with IPs := result.IPs ++ [ipConf] }
      let result := { result with Routes := ipamConf.Routes }
      match env.marshal result with
      | .error err =>
        let w := w.WriteHeader http.StatusInternalServerError
        let w := w.Write ("failed to marshal result: " ++ err)
        let w := w.HeaderSet "Content-Type" "application/json"
        (w.Write "", st)
      | .ok data =>
        let w := w.HeaderSet "Content-Type" "application/json"
        (w.Write data, st)

/-- The `case "del"` branch of the handler. -/
def handleDel {σ : Type} (env : ServerEnv σ) (rangeSet : RangeSet)
    (containerid : String) (w : http.ResponseWriter) (st : World σ) :
    http.ResponseWriter × World σ :=
  match allocRelease env rangeSet containerid st with
  | (some err, st) =>
    let w := w.WriteHeader http.StatusInternalServerError
    (w.Write ("failed to release " ++ containerid ++ ": " ++ err), st)
  | (none, st) => (w, st)

/-- The `http.HandlerFunc` passed to `ListenAndServe`; `qs` is `req.URL.Query()`. -/
def handler {σ : Type} (env : ServerEnv σ) (ipamConf : IPAMConfig) (qs : url.Values)
    (w : http.ResponseWriter) (st : World σ) : http.ResponseWriter × World σ :=
  let containerid := qs.Get "containerid"
  let scope := qs.Get "scope"
  let version := qs.Get "version"
  if containerid = "" ∨ scope = "" ∨ version = "" then
    (w.WriteHeader http.StatusBadRequest, st)
  else
    match ipamConf.Ranges.lookup scope with
    | none => (w.WriteHeader http.StatusNotFound, st)
    | some rangeSet =>
      let cmd := qs.Get "cmd"
      if cmd = "add" then handleAdd env ipamConf rangeSet containerid w st
      else if cmd = "del" then handleDel env rangeSet containerid w st
      else (w.WriteHeader 404, st)

/-- One request served: the handler run on a fresh response writer. -/
def serve {σ : Type} (env : ServerEnv σ) (ipamConf : IPAMConfig) (qs : url.Values)
    (st : World σ) : http.Response × World σ :=
  let r := handler env ipamConf qs {} st
  (r.1.finish, r.2)

end server

/-! ## The client plugin -/

namespace client

/-- Client `IPAMConfig`; `Typ` is the Go field `Type`. -/
structure IPAMConfig where
  Name : String
  Typ : String
  Remote : String
  ID : String
  Scope : String
deriving DecidableEq, Repr

/-- Client `Net`: the top-level configuration; `IPAM` is a pointer. -/
structure Net where
  Name : String
  CNIVersion : String
  IPAM : Option IPAMConfig
deriving DecidableEq, Repr

/-- Go `skel.CmdArgs`, the fields the plugin reads. -/
structure CmdArgs where
  ContainerID : String
  StdinData : String
  Args : String
deriving DecidableEq, Repr

/-- Library code the plugin uses. -/
structure ClientEnv where
  unmarshalNet : String → Except String Net
  unmarshalResult : String → Except String Result
  PrintResult : Result → String → Option String
  quote : String → String

/-- What `client.Get` hands back when it returns no error: the status code and
the outcome of `ioutil.ReadAll(resp.Body)`. -/
structure HTTPResponse where
  StatusCode : Nat
  Body : Except String String

/-- Go `client.Get(fmt.Sprintf("%s?%s", remote, params.Encode()))` with the
3 second timeout: given the remote and the query values it either fails or
returns a response, and may change the remote side `τ`. -/
abbrev Transport (τ : Type) := String → url.Values → τ → Except String HTTPResponse × τ

/-- Go `LoadIPAMConfig`. -/
def LoadIPAMConfig (env : ClientEnv) (bytes : String) (_envArgs : String) :
    Except String (IPAMConfig × String) :=
  match env.unmarshalNet bytes with
  | .error err => .error err
  | .ok n =>
    match n.IPAM with
    | none => .error "IPAM config missing 'ipam' key"
    | some ipam => .ok ({ ipam with Name := n.Name }, n.CNIVersion)

/-- The composite container key: `ipamConf.ID+"/"+args.ContainerID`. -/
def compositeKey (poolID containerID : String) : String := poolID ++ "/" ++ containerID

/-- The query values both commands build. -/
def buildParams (cmd : String) (ipamConf : IPAMConfig) (confVersion : String)
    (containerID : String) : url.Values :=
  let params : url.Values := []
  let params := params.Add "cmd" cmd
  let params := params.Add "scope" ipamConf.Scope
  let params := params.Add "version" confVersion
  params.Add "containerid" (compositeKey ipamConf.ID containerID)

/-- Go `cmdAdd`; the result is the returned `error` (`none` is `nil`). -/
def cmdAdd {τ : Type} (env : ClientEnv) (get : Transport τ) (args : CmdArgs) (remote : τ) :
    Option String × τ :=
  match LoadIPAMConfig env args.StdinData args.Args with
  | .error err => (some err, remote)
  | .ok (ipamConf, confVersion) =>
    let params := buildParams "add" ipamConf confVersion args.ContainerID
    match get ipamConf.Remote params remote with
    | (.error err, remote) =>
      (some ("failed to call remote " ++ env.quote ipamConf.Remote ++ ": " ++ err), remote)
    | (.ok resp, remote) =>
      if resp.StatusCode ≠ http.StatusOK then
        (some ("failed to call remote " ++ env.quote ipamConf.Remote ++
          ": unexpected status code " ++ toString resp.StatusCode), remote)
      else
        match resp.Body with
        | .error err => (some ("failed to read remote response: " ++ err), remote)
        | .ok data =>
          match env.unmarshalResult data with
          | .error err => (some ("failed to parse remote response: " ++ err), remote)
          | .ok result => (env.PrintResult result confVersion, remote)

/-- Go `cmdDel`; the result is the returned `error` (`none` is `nil`). -/
def cmdDel {τ : Type} (env : ClientEnv) (get : Transport τ) (args : CmdArgs) (remote : τ) :
    Option String × τ :=
  match LoadIPAMConfig env args.StdinData args.Args with
  | .error err => (some err, remote)
  | .ok (ipamConf, confVersion) =>
    let params := buildParams "del" ipamConf confVersion args.ContainerID
    match get ipamConf.Remote params remote with
    | (.error err, remote) =>
      (some ("failed to call remote " ++ env.quote ipamConf.Remote ++ ": " ++ err), remote)
    | (.ok resp, remote) =>
      if resp.StatusCode ≠ http.StatusOK then
        (some ("failed to call remote " ++ env.quote ipamConf.Remote ++
          ": unexpected status code " ++ toString resp.StatusCode), remote)
      else (none, remote)

/-- Go `fmt.Sprintf("%s?%s", ipamConf.Remote, params.Encode())`: the URL that
`client.Get` is called with. -/
def requestURL (remote : String) (params : url.Values) : String :=
  remote ++ "?" ++ params.Encode

/-- A GET that reaches the server: the handler runs on `req.URL.Query()`, the
query parsed from the URL the client built, and its response comes back whole.
`semicolons` is the Go version's reading of `;` in `url.ParseQuery`. -/
def wire {σ : Type} (semicolons : Bool) (senv : server.ServerEnv σ)
    (conf : server.IPAMConfig) : Transport (World σ) :=
  fun remote params st =>
    let r := server.serve senv conf
      (url.ParseQuery semicolons (url.rawQuery (requestURL remote params))) st
    (.ok { StatusCode := r.1.StatusCode, Body := .ok r.1.Body }, r.2)

end client

/-! ## Concrete instances -/

namespace demo

/-- A store that is the list of the keys holding an address. `Get` hands out
the next address of 10.0.0.0/24; `Release` fails on a key that holds none. -/
def allocator : Allocator (List String) where
  Get := fun _ store id =>
    (.ok { Version := "4", Interface := none,
           Address := "10.0.0." ++ toString (store.length + 2) ++ "/24",
           Gateway := "10.0.0.1" },
     store ++ [id])
  Release := fun _ store id =>
    if id ∈ store then (none, store.erase id)
    else (some ("no address held by " ++ id), store)

/-- An allocator whose `Release` always fails. -/
def stuckAllocator : Allocator (List String) where
  Get := allocator.Get
  Release := fun _ store _ => (some "store is locked", store)

def blueRange : RangeSet :=
  [{ RangeStart := "", RangeEnd := "", Subnet := "10.0.0.0/24", Gateway := "10.0.0.1" }]

def resolvLines : List String :=
  ["# generated", "domain example.org", "nameserver 10.0.0.53", "",
   "search example.org example.net", "nameserver 10.0.1.53"]

/-- A file system with one readable file. -/
def osOpen (filename : String) : Except String File :=
  if filename = "/etc/resolv.conf" then .ok { lines := resolvLines, err := none }
  else .error ("open " ++ filename ++ ": no such file or directory")

/-- A stand-in for `json.Marshal`: the addresses, then the name servers. -/
def marshal (r : Result) : Except String String :=
  .ok ("ips=" ++ String.intercalate "," (r.IPs.map (fun ip => ip.Address)) ++
       " dns=" ++ String.intercalate "," r.DNS.Nameservers)

def env : server.ServerEnv (List String) :=
  { osOpen := osOpen, allocator := allocator, marshal := marshal }

def stuckEnv : server.ServerEnv (List String) :=
  { osOpen := osOpen, allocator := stuckAllocator, marshal := marshal }

def route : Route := { Dst := "0.0.0.0/0", GW := "10.0.0.1" }

/-- A comment line of 70000 characters. -/
def longComment : String := String.mk (List.replicate 70000 '#')

def disk (filename : String) : Except String (List String) :=
  if filename = "/etc/resolv.conf" then .ok resolvLines
  else .error ("open " ++ filename ++ ": no such file or directory")

/-- The disk of `disk` with the long comment line put in front of the file. -/
def diskLong (filename : String) : Except String (List String) :=
  if filename = "/etc/resolv.conf" then .ok (longComment :: resolvLines)
  else .error ("open " ++ filename ++ ": no such file or directory")

/-- The disk of `disk` with other short blank and comment lines in the file. -/
def diskShort (filename : String) : Except String (List String) :=
  if filename = "/etc/resolv.conf" then
    .ok ["  ; local", "domain example.org", "\t", "nameserver 10.0.0.53",
         "search example.org example.net", "#", "nameserver 10.0.1.53", "\r"]
  else .error ("open " ++ filename ++ ": no such file or directory")

/-- A file with a `nameserver` line that has no argument. -/
def bareOpen (_filename : String) : Except String File :=
  .ok { lines := ["nameserver 10.0.0.53", "nameserver"], err := none }

/-- A server configuration without resolver file. -/
def conf : server.IPAMConfig :=
  { Ranges := [("blue", blueRange)], DataDir := "/var/lib/cni", ResolveConf := "",
    Routes := [route] }

/-- A server configuration with a readable resolver file. -/
def confDNS : server.IPAMConfig := { conf with ResolveConf := "/etc/resolv.conf" }

/-- A server configuration whose resolver file does not exist. -/
def confMissing : server.IPAMConfig := { conf with ResolveConf := "/etc/missing.conf" }

/-- A server configuration whose table has the empty scope name as a key. -/
def confEmptyScope : server.IPAMConfig := { conf with Ranges := [("", blueRange)] }

def emptyWorld : World (List String) := { store := [], calls := [] }

def addQuery : url.Values :=
  [("cmd", "add"), ("scope", "blue"), ("version", "0.3.1"), ("containerid", "pool1/abc")]

def delQuery : url.Values :=
  [("cmd", "del"), ("scope", "blue"), ("version", "0.3.1"), ("containerid", "pool1/abc")]

/-- A stand-in for `json.Unmarshal` of the plugin configuration: four known inputs. -/
def unmarshalNet (bytes : String) : Except String client.Net :=
  if bytes = "blue" then
    .ok { Name := "net0", CNIVersion := "0.3.1",
          IPAM := some { Name := "", Typ := "remote", Remote := "http://ipam.example",
                         ID := "pool1", Scope := "blue" } }
  else if bytes = "noscope" then
    .ok { Name := "net0", CNIVersion := "0.3.1",
          IPAM := some { Name := "", Typ := "remote", Remote := "http://ipam.example",
                         ID := "pool1", Scope := "" } }
  else if bytes = "query" then
    .ok { Name := "net0", CNIVersion := "0.3.1",
          IPAM := some { Name := "", Typ := "remote", Remote := "http://127.0.0.1:80/?x=1",
                         ID := "pool1", Scope := "blue" } }
  else if bytes = "fragment" then
    .ok { Name := "net0", CNIVersion := "0.3.1",
          IPAM := some { Name := "", Typ := "remote", Remote := "http://127.0.0.1:80/#top",
                         ID := "pool1", Scope := "blue" } }
  else .error "unexpected end of JSON input"

/-- A stand-in for `json.Unmarshal` of the response body, reading what
`marshal` writes as one address. -/
def unmarshalResult (data : String) : Except String Result :=
  if data = "" then .error "unexpected end of JSON input"
  else .ok { IPs := [{ Version := "4", Interface := none, Address := data, Gateway := "" }] }

/-- A stand-in for `types.PrintResult`: the versions `current.Result` converts to. -/
def PrintResult (_r : Result) (version : String) : Option String :=
  if version ∈ ["0.1.0", "0.2.0", "0.3.0", "0.3.1"] then none
  else some ("cannot convert version 0.3.x to " ++ version)

def clientEnv : client.ClientEnv :=
  { unmarshalNet := unmarshalNet, unmarshalResult := unmarshalResult,
    PrintResult := PrintResult, quote := fun s => "<" ++ s ++ ">" }

def args : client.CmdArgs := { ContainerID := "abc", StdinData := "blue", Args := "" }

def argsNoScope : client.CmdArgs := { ContainerID := "abc", StdinData := "noscope", Args := "" }

def argsQuery : client.CmdArgs := { ContainerID := "abc", StdinData := "query", Args := "" }

def argsFragment : client.CmdArgs :=
  { ContainerID := "abc", StdinData := "fragment", Args := "" }

/-- A remote that answers every request with the given status and body. -/
def fixedRemote (status : Nat) (body : String) : client.Transport Unit :=
  fun _ _ u => (.ok { StatusCode := status, Body := .ok body }, u)

end demo

/-! ## The server dispatcher -/

/-- C1: a request in which `containerid`, `scope` or `version` is missing or
empty is answered with status 400 and no body, and the allocator is not called
(store and call log are unchanged), whatever `cmd` and the ranges table are. -/
theorem serve_missing_parameter {σ : Type} (env : server.ServerEnv σ)
    (conf : server.IPAMConfig) (qs : url.Values) (st : World σ)
    (h : qs.Get "containerid" = "" ∨ qs.Get "scope" = "" ∨ qs.Get "version" = "") :
    (server.serve env conf qs st).1.StatusCode = 400 ∧
      (server.serve env conf qs st).1.Body = "" ∧
      (server.serve env conf qs st).2 = st := by
  have e : server.handler env conf qs {} st =
      (http.ResponseWriter.WriteHeader {} http.StatusBadRequest, st) := by
    simp only [server.handler, if_pos h]
  rw [server.serve, e]
  exact ⟨rfl, rfl, rfl⟩

theorem serve_missing_parameter_witness :
    (url.Values.Get [("cmd", "add"), ("scope", "blue"), ("containerid", "pool1/abc")]
        "version" = "") ∧
    (server.serve demo.env demo.conf
        [("cmd", "add"), ("scope", "blue"), ("containerid", "pool1/abc")]
        demo.emptyWorld).1.StatusCode = 400 :=
  ⟨by decide,
   (serve_missing_parameter demo.env demo.conf
      [("cmd", "add"), ("scope", "blue"), ("containerid", "pool1/abc")] demo.emptyWorld
      (Or.inr (Or.inr (by decide)))).1⟩

/-- C2: a request that passes the parameter check and whose scope is not a key
of the ranges table is answered with status 404 whatever `cmd` is, and the
allocator is not called (store and call log are unchanged). -/
theorem serve_unknown_scope {σ : Type} (env : server.ServerEnv σ)
    (conf : server.IPAMConfig) (qs : url.Values) (st : World σ)
    (hc : qs.Get "containerid" ≠ "") (hs : qs.Get "scope" ≠ "") (hv : qs.Get "version" ≠ "")
    (hscope : conf.Ranges.lookup (qs.Get "scope") = none) :
    (server.serve env conf qs st).1.StatusCode = 404 ∧
      (server.serve env conf qs st).2 = st := by
  have h : ¬ (qs.Get "containerid" = "" ∨ qs.Get "scope" = "" ∨ qs.Get "version" = "") := by
    simp [hc, hs, hv]
  have e : server.handler env conf qs {} st =
      (http.ResponseWriter.WriteHeader {} http.StatusNotFound, st) := by
    simp only [server.handler, if_neg h, hscope]
  rw [server.serve, e]
  exact ⟨rfl, rfl⟩

theorem serve_unknown_scope_witness :
    (server.serve demo.env demo.conf
        [("cmd", "del"), ("scope", "red"), ("version", "0.3.1"), ("containerid", "pool1/abc")]
        demo.emptyWorld).1.StatusCode = 404 :=
  (serve_unknown_scope demo.env demo.conf
      [("cmd", "del"), ("scope", "red"), ("version", "0.3.1"), ("containerid", "pool1/abc")]
      demo.emptyWorld (by decide) (by decide) (by decide) (by decide)).1

theorem empty_append_str (s : String) : "" ++ s = s := by
  apply String.ext
  simp [String.data_append]

theorem ne_empty_of_lit_append (c : Char) (cs : List Char) (s : String) :
    String.mk (c :: cs) ++ s ≠ "" := by
  intro h
  have := congrArg String.data h
  simp [String.data_append] at this

theorem finish_error (c : Nat) (s : String) :
    ((http.ResponseWriter.WriteHeader {} c).Write s).finish =
      { StatusCode := c, Header := [], Body := s } := by
  show ({ StatusCode := c, Header := [], Body := "" ++ s } : http.Response) = _
  rw [empty_append_str]

theorem finish_fresh :
    (http.ResponseWriter.finish {}) = { StatusCode := 200, Header := [], Body := "" } := rfl

theorem handler_del_eq {σ : Type} (env : server.ServerEnv σ)
    (conf : server.IPAMConfig) (qs : url.Values) (st : World σ) (rs : RangeSet)
    (w : http.ResponseWriter)
    (hc : qs.Get "containerid" ≠ "") (hs : qs.Get "scope" ≠ "") (hv : qs.Get "version" ≠ "")
    (hscope : conf.Ranges.lookup (qs.Get "scope") = some rs)
    (hcmd : qs.Get "cmd" = "del") :
    server.handler env conf qs w st =
      server.handleDel env rs (qs.Get "containerid") w st := by
  have h : ¬ (qs.Get "containerid" = "" ∨ qs.Get "scope" = "" ∨ qs.Get "version" = "") := by
    simp [hc, hs, hv]
  have hne : ¬ ("del" = "add") := by decide
  simp only [server.handler, if_neg h, hscope, hcmd, if_neg hne, if_true]

/-- C4: a `cmd=del` request that passes the parameter check and names a scope of
the ranges table makes exactly one allocator call, `Release` with the request's
`containerid`; when `Release` succeeds the response is 200 with an empty body,
and when it fails with `err` the response is 500 with a non-empty body that
contains the `containerid` and `err`. -/
theorem serve_del {σ : Type} (env : server.ServerEnv σ)
    (conf : server.IPAMConfig) (qs : url.Values) (st : World σ) (rs : RangeSet)
    (hc : qs.Get "containerid" ≠ "") (hs : qs.Get "scope" ≠ "") (hv : qs.Get "version" ≠ "")
    (hscope : conf.Ranges.lookup (qs.Get "scope") = some rs)
    (hcmd : qs.Get "cmd" = "del") :
    (server.serve env conf qs st).2.calls =
        st.calls ++ [AllocCall.release rs (qs.Get "containerid")] ∧
      (server.serve env conf qs st).2.store =
        (env.allocator.Release rs st.store (qs.Get "containerid")).2 ∧
      ((env.allocator.Release rs st.store (qs.Get "containerid")).1 = none →
        (server.serve env conf qs st).1.StatusCode = 200 ∧
        (server.serve env conf qs st).1.Body = "") ∧
      (∀ err, (env.allocator.Release rs st.store (qs.Get "containerid")).1 = some err →
        (server.serve env conf qs st).1.StatusCode = 500 ∧
        (server.serve env conf qs st).1.Body ≠ "" ∧
        (∃ a b, (server.serve env conf qs st).1.Body = a ++ qs.Get "containerid" ++ b) ∧
        (∃ a b, (server.serve env conf qs st).1.Body = a ++ err ++ b)) := by
  rw [server.serve, handler_del_eq env conf qs st rs {} hc hs hv hscope hcmd]
  simp only [server.handleDel, server.allocRelease]
  cases hr : (env.allocator.Release rs st.store (qs.Get "containerid")).1 with
  | none =>
    refine ⟨rfl, rfl, fun _ => ⟨rfl, rfl⟩, fun err herr => ?_⟩
    cases herr
  | some e =>
    refine ⟨rfl, rfl, fun h => ?_, fun err herr => ?_⟩
    · cases h
    · cases herr
      simp only [finish_error]
      refine ⟨rfl, ?_, ⟨"failed to release ", ": " ++ e, ?_⟩,
        ⟨"failed to release " ++ qs.Get "containerid" ++ ": ", "", ?_⟩⟩
      · simp only [String.append_assoc]
        exact ne_empty_of_lit_append _ _ _
      · simp [String.append_assoc]
      · simp [String.append_assoc]

theorem serve_del_witness :
    (server.serve demo.stuckEnv demo.conf demo.delQuery demo.emptyWorld).2.calls =
      [] ++ [AllocCall.release demo.blueRange "pool1/abc"] :=
  (serve_del demo.stuckEnv demo.conf demo.delQuery demo.emptyWorld demo.blueRange
    (by decide) (by decide) (by decide) (by decide) (by decide)).1

theorem handler_add_eq {σ : Type} (env : server.ServerEnv σ)
    (conf : server.IPAMConfig) (qs : url.Values) (st : World σ) (rs : RangeSet)
    (w : http.ResponseWriter)
    (hc : qs.Get "containerid" ≠ "") (hs : qs.Get "scope" ≠ "") (hv : qs.Get "version" ≠ "")
    (hscope : conf.Ranges.lookup (qs.Get "scope") = some rs)
    (hcmd : qs.Get "cmd" = "add") :
    server.handler env conf qs w st =
      server.handleAdd env conf rs (qs.Get "containerid") w st := by
  have h : ¬ (qs.Get "containerid" = "" ∨ qs.Get "scope" = "" ∨ qs.Get "version" = "") := by
    simp [hc, hs, hv]
  simp only [server.handler, if_neg h, hscope, hcmd, if_true]

theorem finish_json (data : String) :
    ((http.ResponseWriter.HeaderSet {} "Content-Type" "application/json").Write data).finish =
      { StatusCode := 200, Header := [("Content-Type", "application/json")], Body := data } := by
  show ({ StatusCode := 200, Header := [("Content-Type", "application/json")],
          Body := "" ++ data } : http.Response) = _
  rw [empty_append_str]

/-- The whole outcome of a successful add request. -/
theorem serve_add_eq {σ : Type} (env : server.ServerEnv σ)
    (conf : server.IPAMConfig) (qs : url.Values) (st : World σ) (rs : RangeSet)
    (dns : DNS) (A : IPConfig) (store' : σ) (data : String)
    (hc : qs.Get "containerid" ≠ "") (hs : qs.Get "scope" ≠ "") (hv : qs.Get "version" ≠ "")
    (hscope : conf.Ranges.lookup (qs.Get "scope") = some rs)
    (hcmd : qs.Get "cmd" = "add")
    (hdns : (conf.ResolveConf = "" ∧ dns = {}) ∨
      (conf.ResolveConf ≠ "" ∧ parseResolvConf env.osOpen conf.ResolveConf = .ok dns))
    (hget : env.allocator.Get rs st.store (qs.Get "containerid") = (.ok A, store'))
    (hm : env.marshal { IPs := [A], Routes := conf.Routes, DNS := dns } = .ok data) :
    server.serve env conf qs st =
      ({ StatusCode := 200, Header := [("Content-Type", "application/json")], Body := data },
       { store := store', calls := st.calls ++ [AllocCall.get rs (qs.Get "containerid")] }) := by
  rw [server.serve, handler_add_eq env conf qs st rs {} hc hs hv hscope hcmd]
  rcases hdns with ⟨h1, h2⟩ | ⟨h1, h2⟩
  · subst h2
    simp only [server.handleAdd, server.allocGet, h1, hget, ne_eq, not_true_eq_false, if_false,
      List.nil_append, hm, finish_json]
  · simp only [server.handleAdd, server.allocGet, h1, h2, hget, ne_eq, not_false_eq_true,
      if_true, List.nil_append, hm, finish_json]

/-- The whole outcome of a successful del request. -/
theorem serve_del_eq {σ : Type} (env : server.ServerEnv σ)
    (conf : server.IPAMConfig) (qs : url.Values) (st : World σ) (rs : RangeSet) (store' : σ)
    (hc : qs.Get "containerid" ≠ "") (hs : qs.Get "scope" ≠ "") (hv : qs.Get "version" ≠ "")
    (hscope : conf.Ranges.lookup (qs.Get "scope") = some rs)
    (hcmd : qs.Get "cmd" = "del")
    (hrel : env.allocator.Release rs st.store (qs.Get "containerid") = (none, store')) :
    server.serve env conf qs st =
      ({ StatusCode := 200, Header := [], Body := "" },
       { store := store',
         calls := st.calls ++ [AllocCall.release rs (qs.Get "containerid")] }) := by
  rw [server.serve, handler_del_eq env conf qs st rs {} hc hs hv hscope hcmd]
  simp only [server.handleDel, server.allocRelease, hrel, finish_fresh]

/-- C3 (amended): a `cmd=add` request that passes the parameter check and names
a scope of the ranges table, for which the resolver file (when a path is
configured) is parsed without error into `dns` and `Get` on the `containerid`
yields `A`, is answered with status 200 and `Content-Type: application/json`;
the body is the serialization of the result with IPs `[A]`, the configured
routes and DNS block `dns` (empty when no path is configured), and `Get` is the
only allocator call. -/
theorem serve_add {σ : Type} (env : server.ServerEnv σ)
    (conf : server.IPAMConfig) (qs : url.Values) (st : World σ) (rs : RangeSet)
    (dns : DNS) (A : IPConfig) (store' : σ) (data : String)
    (hc : qs.Get "containerid" ≠ "") (hs : qs.Get "scope" ≠ "") (hv : qs.Get "version" ≠ "")
    (hscope : conf.Ranges.lookup (qs.Get "scope") = some rs)
    (hcmd : qs.Get "cmd" = "add")
    (hdns : (conf.ResolveConf = "" ∧ dns = {}) ∨
      (conf.ResolveConf ≠ "" ∧ parseResolvConf env.osOpen conf.ResolveConf = .ok dns))
    (hget : env.allocator.Get rs st.store (qs.Get "containerid") = (.ok A, store'))
    (hm : env.marshal { IPs := [A], Routes := conf.Routes, DNS := dns } = .ok data) :
    (server.serve env conf qs st).1.StatusCode = 200 ∧
      (server.serve env conf qs st).1.Header.lookup "Content-Type" = some "application/json" ∧
      (server.serve env conf qs st).1.Body = data ∧
      (server.serve env conf qs st).2.calls =
        st.calls ++ [AllocCall.get rs (qs.Get "containerid")] ∧
      (server.serve env conf qs st).2.store = store' := by
  rw [serve_add_eq env conf qs st rs dns A store' data hc hs hv hscope hcmd hdns hget hm]
  exact ⟨rfl, rfl, rfl, rfl, rfl⟩

theorem serve_add_witness :
    (server.serve demo.env demo.confDNS demo.addQuery demo.emptyWorld).1.StatusCode = 200 ∧
    (server.serve demo.env demo.confDNS demo.addQuery demo.emptyWorld).1.Body =
      "ips=10.0.0.2/24 dns=10.0.0.53,10.0.1.53" :=
  have h := serve_add demo.env demo.confDNS demo.addQuery demo.emptyWorld demo.blueRange
    { Nameservers := ["10.0.0.53", "10.0.1.53"], Domain := "example.org",
      Search := ["example.org", "example.net"] }
    { Version := "4", Interface := none, Address := "10.0.0.2/24", Gateway := "10.0.0.1" }
    ["pool1/abc"] "ips=10.0.0.2/24 dns=10.0.0.53,10.0.1.53"
    (by decide) (by decide) (by decide) (by decide) (by decide)
    (Or.inr ⟨by decide, by rfl⟩) (by rfl) (by rfl)
  ⟨h.1, h.2.2.1⟩

/-- C3 as stated fails: with a configured resolver file that cannot be opened,
a well-formed `cmd=add` request for a known scope on which `Get` would yield an
address is answered with status 500, and `Get` is not called. -/
theorem serve_add_unreadable_resolv :
    url.Values.Get demo.addQuery "containerid" ≠ "" ∧
    url.Values.Get demo.addQuery "scope" ≠ "" ∧
    url.Values.Get demo.addQuery "version" ≠ "" ∧
    url.Values.Get demo.addQuery "cmd" = "add" ∧
    demo.confMissing.Ranges.lookup (url.Values.Get demo.addQuery "scope") =
      some demo.blueRange ∧
    (demo.env.allocator.Get demo.blueRange demo.emptyWorld.store
        (url.Values.Get demo.addQuery "containerid")).1.toOption =
      some { Version := "4", Interface := none, Address := "10.0.0.2/24",
             Gateway := "10.0.0.1" } ∧
    (server.serve demo.env demo.confMissing demo.addQuery demo.emptyWorld).1.StatusCode = 500 ∧
    (server.serve demo.env demo.confMissing demo.addQuery demo.emptyWorld).2.calls = [] := by
  decide


/-! ## The resolver file parser -/

theorem trimSpaceChars_eq (l : List Char) :
    strings.trimSpaceChars l = (l.dropWhile unicode.IsSpace).rdropWhile unicode.IsSpace := rfl

theorem rdropWhile_cons_of_neg {p : Char → Bool} (c : Char) (hc : ¬ p c) (r : List Char) :
    List.rdropWhile p (c :: r) = c :: List.rdropWhile p r := by
  induction r using List.reverseRecOn with
  | nil =>
    have h := List.rdropWhile_concat_neg p [] c hc
    simpa using h
  | append_singleton r x ih =>
    by_cases hx : p x
    · have h1 := List.rdropWhile_concat_pos p (c :: r) x hx
      have h2 := List.rdropWhile_concat_pos p r x hx
      rw [List.cons_append] at h1
      rw [h1, h2, ih]
    · have h1 := List.rdropWhile_concat_neg p (c :: r) x hx
      have h2 := List.rdropWhile_concat_neg p r x hx
      rw [List.cons_append] at h1
      rw [h1, h2]

theorem dropWhile_head_not (p : Char → Bool) (l : List Char) (c : Char) (r : List Char)
    (h : l.dropWhile p = c :: r) : ¬ p c := by
  induction l with
  | nil => simp at h
  | cons x xs ih =>
    by_cases hx : p x
    · rw [List.dropWhile_cons_of_pos hx] at h
      exact ih h
    · rw [List.dropWhile_cons_of_neg hx] at h
      cases h
      exact hx

/-- The trimmed line is empty exactly when the line is all white space, and
otherwise starts with the first non-space character of the line. -/
theorem trimSpaceChars_cases (l : List Char) :
    (l.dropWhile unicode.IsSpace = [] ∧ strings.trimSpaceChars l = []) ∨
    (∃ c r, l.dropWhile unicode.IsSpace = c :: r ∧ ¬ unicode.IsSpace c ∧
      strings.trimSpaceChars l = c :: List.rdropWhile unicode.IsSpace r) := by
  rw [trimSpaceChars_eq]
  cases h : l.dropWhile unicode.IsSpace with
  | nil => left; exact ⟨rfl, rfl⟩
  | cons c r =>
    right
    have hc := dropWhile_head_not _ l c r h
    exact ⟨c, r, rfl, hc, rdropWhile_cons_of_neg c hc r⟩

theorem fieldsLoop_dropWhile (l : List Char) :
    strings.fieldsLoop (l.dropWhile unicode.IsSpace) [] = strings.fieldsLoop l [] := by
  induction l with
  | nil => rfl
  | cons x xs ih =>
    by_cases hx : unicode.IsSpace x
    · rw [List.dropWhile_cons_of_pos hx, ih]
      simp [strings.fieldsLoop, hx]
    · rw [List.dropWhile_cons_of_neg hx]

theorem fieldsLoop_concat_space (x : Char) (hx : unicode.IsSpace x = true) (l cur : List Char) :
    strings.fieldsLoop (l ++ [x]) cur = strings.fieldsLoop l cur := by
  induction l generalizing cur with
  | nil =>
    cases cur <;> simp [strings.fieldsLoop, hx]
  | cons y ys ih =>
    have e : (y :: ys) ++ [x] = y :: (ys ++ [x]) := rfl
    rw [e]
    simp only [strings.fieldsLoop, ih]

theorem fieldsLoop_rdropWhile (l cur : List Char) :
    strings.fieldsLoop (l.rdropWhile unicode.IsSpace) cur = strings.fieldsLoop l cur := by
  induction l using List.reverseRecOn with
  | nil => rfl
  | append_singleton r x ih =>
    by_cases hx : unicode.IsSpace x
    · rw [List.rdropWhile_concat_pos _ _ _ hx, ih, fieldsLoop_concat_space x hx]
    · rw [List.rdropWhile_concat_neg _ _ _ hx]

/-- `strings.Fields` does not see the white space `strings.TrimSpace` removes. -/
theorem Fields_TrimSpace (s : String) : strings.Fields (strings.TrimSpace s) = strings.Fields s := by
  show strings.fieldsLoop (strings.trimSpaceChars s.data) [] = strings.fieldsLoop s.data []
  rw [trimSpaceChars_eq, fieldsLoop_rdropWhile, fieldsLoop_dropWhile]

/-- A field under construction ends up as the first field, with the characters
already read at its front. -/
theorem fieldsLoop_first (r cur : List Char) (hcur : cur ≠ []) :
    ∃ f rest t, strings.fieldsLoop r cur = f :: rest ∧ f.data = cur.reverse ++ t := by
  induction r generalizing cur with
  | nil =>
    refine ⟨String.mk cur.reverse, [], [], ?_, by simp⟩
    cases cur with
    | nil => exact absurd rfl hcur
    | cons a as => simp [strings.fieldsLoop]
  | cons x xs ih =>
    by_cases hx : unicode.IsSpace x
    · refine ⟨String.mk cur.reverse, strings.fieldsLoop xs [], [], ?_, by simp⟩
      cases cur with
      | nil => exact absurd rfl hcur
      | cons a as => simp [strings.fieldsLoop, hx]
    · obtain ⟨f, rest, t, h1, h2⟩ := ih (x :: cur) (by simp)
      refine ⟨f, rest, x :: t, ?_, ?_⟩
      · simp only [strings.fieldsLoop, hx, h1]
        simp
      · rw [h2]; simp

/-- The first field of a line starts with the first non-space character. -/
theorem Fields_first_char (s : String) (c : Char) (r : List Char)
    (h : s.data.dropWhile unicode.IsSpace = c :: r) :
    ∃ f rest t, strings.Fields s = f :: rest ∧ f.data = c :: t := by
  have hc := dropWhile_head_not _ _ c r h
  have e : strings.Fields s = strings.fieldsLoop r [c] := by
    show strings.fieldsLoop s.data [] = _
    rw [← fieldsLoop_dropWhile, h]
    simp [strings.fieldsLoop, hc]
  obtain ⟨f, rest, t, h1, h2⟩ := fieldsLoop_first r [c] (by simp)
  exact ⟨f, rest, t, by rw [e, h1], by simpa using h2⟩

theorem Fields_blank (s : String) (h : s.data.dropWhile unicode.IsSpace = []) :
    strings.Fields s = [] := by
  show strings.fieldsLoop s.data [] = _
  rw [← fieldsLoop_dropWhile, h]
  rfl

theorem applyFields_comment (dns : DNS) (f : String) (rest : List String) (c : Char)
    (t : List Char) (hf : f.data = c :: t) (hc : c = '#' ∨ c = ';') :
    applyFields dns (f :: rest) = dns := by
  have h1 : f ≠ "nameserver" := by
    intro h; rw [h] at hf; injection hf with h0 _; rcases hc with hc | hc <;> rw [hc] at h0 <;> cases h0
  have h2 : f ≠ "domain" := by
    intro h; rw [h] at hf; injection hf with h0 _; rcases hc with hc | hc <;> rw [hc] at h0 <;> cases h0
  have h3 : f ≠ "search" := by
    intro h; rw [h] at hf; injection hf with h0 _; rcases hc with hc | hc <;> rw [hc] at h0 <;> cases h0
  have h4 : f ≠ "options" := by
    intro h; rw [h] at hf; injection hf with h0 _; rcases hc with hc | hc <;> rw [hc] at h0 <;> cases h0
  cases rest with
  | nil => rfl
  | cons f1 rest => simp only [applyFields, if_neg h1, if_neg h2, if_neg h3, if_neg h4]

/-- The loop body depends on a line only through `strings.Fields` of the line:
trimming and the comment test change nothing. -/
theorem parseLine_eq (dns : DNS) (text : String) :
    parseLine dns text = applyFields dns (strings.Fields text) := by
  rcases trimSpaceChars_cases text.data with ⟨h1, h2⟩ | ⟨c, r, h1, _, h2⟩
  · have e : (strings.TrimSpace text).data = [] := h2
    rw [Fields_blank text h1]
    simp only [parseLine, e]
    rfl
  · have e : (strings.TrimSpace text).data = c :: List.rdropWhile unicode.IsSpace r := h2
    by_cases hc : c = '#' ∨ c = ';'
    · obtain ⟨f, rest, t, hf, ht⟩ := Fields_first_char text c r h1
      rw [hf, applyFields_comment dns f rest c t ht hc]
      simp only [parseLine, e, if_pos hc]
    · simp only [parseLine, e, if_neg hc, Fields_TrimSpace]
      rcases hF : strings.Fields text with _ | ⟨f0, _ | ⟨f1, rest⟩⟩
      · rfl
      · rfl
      · simp [applyFields]

theorem parseLine_nameservers (dns : DNS) (text : String) :
    (parseLine dns text).Nameservers =
      dns.Nameservers ++ (directiveArg "nameserver" text).toList := by
  rw [parseLine_eq]
  unfold applyFields directiveArg
  rcases strings.Fields text with _ | ⟨f0, _ | ⟨f1, rest⟩⟩
  · simp
  · simp
  · by_cases h1 : f0 = "nameserver"
    · simp [h1]
    · simp only [if_neg h1]
      split_ifs <;> simp

theorem parseLine_domain (dns : DNS) (text : String) :
    (parseLine dns text).Domain = (directiveArg "domain" text).getD dns.Domain := by
  rw [parseLine_eq]
  unfold applyFields directiveArg
  rcases strings.Fields text with _ | ⟨f0, _ | ⟨f1, rest⟩⟩
  · simp
  · simp
  · by_cases h1 : f0 = "nameserver"
    · have h2 : ¬ ("nameserver" = "domain") := by decide
      simp [h1, h2]
    · simp only [if_neg h1]
      split_ifs <;> simp

theorem foldl_parseLine_nameservers (lines : List String) (dns : DNS) :
    (lines.foldl parseLine dns).Nameservers =
      dns.Nameservers ++ lines.filterMap (directiveArg "nameserver") := by
  induction lines generalizing dns with
  | nil => simp
  | cons l ls ih =>
    rw [List.foldl_cons, ih, parseLine_nameservers]
    cases h : directiveArg "nameserver" l <;> simp [List.filterMap_cons, h]

theorem foldl_parseLine_domain_keep (lines : List String) (dns : DNS)
    (h : ∀ l ∈ lines, directiveArg "domain" l = none) :
    (lines.foldl parseLine dns).Domain = dns.Domain := by
  induction lines generalizing dns with
  | nil => rfl
  | cons l ls ih =>
    rw [List.foldl_cons, ih _ (fun x hx => h x (List.mem_cons_of_mem _ hx)), parseLine_domain,
      h l (List.mem_cons_self _ _)]
    rfl

theorem parseLine_skip (dns : DNS) (text : String) (h : isBlankOrComment text = true) :
    parseLine dns text = dns := by
  rw [parseLine_eq]
  unfold isBlankOrComment at h
  cases hd : text.data.dropWhile unicode.IsSpace with
  | nil => rw [Fields_blank text hd]; rfl
  | cons c r =>
    rw [hd] at h
    have hc : c = '#' ∨ c = ';' := by simpa using h
    obtain ⟨f, rest, t, hf, ht⟩ := Fields_first_char text c r hd
    rw [hf, applyFields_comment dns f rest c t ht hc]

theorem length_filterMap_eq_countP (f : String → Option String) (lines : List String) :
    (lines.filterMap f).length = lines.countP (fun l => (f l).isSome) := by
  induction lines with
  | nil => rfl
  | cons l ls ih =>
    cases hl : f l <;> simp [List.filterMap_cons, List.countP_cons, hl, ih]

theorem parseResolvConf_ok (osOpen : String → Except String File) (filename : String)
    (lines : List String) (h : osOpen filename = .ok { lines := lines, err := none }) :
    parseResolvConf osOpen filename = .ok (scanAll lines) := by
  simp only [parseResolvConf, h]

/-- C8 (amended): for a resolver file read without error, the name servers
returned by `parseResolvConf` are the second fields of the lines whose first
field is `nameserver` and that have a second field, in file order; there are as
many entries as such lines. -/
theorem parseResolvConf_nameservers (osOpen : String → Except String File)
    (filename : String) (lines : List String)
    (h : osOpen filename = .ok { lines := lines, err := none }) :
    ∃ dns, parseResolvConf osOpen filename = .ok dns ∧
      dns.Nameservers = lines.filterMap (directiveArg "nameserver") ∧
      dns.Nameservers.length =
        lines.countP (fun l => (directiveArg "nameserver" l).isSome) := by
  refine ⟨scanAll lines, parseResolvConf_ok osOpen filename lines h, ?_, ?_⟩
  · simpa [scanAll] using foldl_parseLine_nameservers lines {}
  · have e := foldl_parseLine_nameservers lines {}
    rw [scanAll, e]
    exact length_filterMap_eq_countP _ lines

theorem parseResolvConf_nameservers_witness :
    ∃ dns, parseResolvConf demo.osOpen "/etc/resolv.conf" = .ok dns ∧
      dns.Nameservers = demo.resolvLines.filterMap (directiveArg "nameserver") ∧
      dns.Nameservers.length =
        demo.resolvLines.countP (fun l => (directiveArg "nameserver" l).isSome) :=
  parseResolvConf_nameservers demo.osOpen "/etc/resolv.conf" demo.resolvLines (by rfl)

/-- C8 as stated fails: a file whose two lines both have `nameserver` as first
field, one of them without an argument, yields one name server, not two. -/
theorem parseResolvConf_bare_nameserver :
    List.countP isNameserverLine ["nameserver 10.0.0.53", "nameserver"] = 2 ∧
    (parseResolvConf demo.bareOpen "/etc/resolv.conf").toOption =
      some { Nameservers := ["10.0.0.53"] } := by
  decide

theorem Fields_dropCR (l : String) : strings.Fields (bufio.dropCR l) = strings.Fields l := by
  unfold bufio.dropCR
  split_ifs with h
  · have e : l.data = l.data.dropLast ++ ['\r'] :=
      (List.dropLast_append_getLast? _ h).symm
    show strings.fieldsLoop l.data.dropLast [] = strings.fieldsLoop l.data []
    conv_rhs => rw [e]
    rw [fieldsLoop_concat_space '\r' (by decide)]
  · rfl

theorem parseLine_dropCR (dns : DNS) (l : String) :
    parseLine dns (bufio.dropCR l) = parseLine dns l := by
  rw [parseLine_eq, parseLine_eq, Fields_dropCR]

theorem scan_filter (lines : List String) :
    (∀ dns, (bufio.scan lines).lines.foldl parseLine dns =
      (bufio.scan (lines.filter (fun l => !isShortBlankOrComment l))).lines.foldl parseLine dns) ∧
    (bufio.scan lines).err =
      (bufio.scan (lines.filter (fun l => !isShortBlankOrComment l))).err := by
  induction lines with
  | nil => exact ⟨fun _ => rfl, rfl⟩
  | cons l ls ih =>
    by_cases hlong : bufio.MaxScanTokenSize ≤ l.utf8ByteSize
    · have hk : isShortBlankOrComment l = false := by
        simp [isShortBlankOrComment, hlong]
      simp [List.filter_cons, hk, bufio.scan, hlong]
    · by_cases hb : isBlankOrComment l = true
      · have hk : isShortBlankOrComment l = true := by
          simp [isShortBlankOrComment, hb]
          omega
        simp only [List.filter_cons, hk, bufio.scan, if_neg hlong, List.foldl_cons,
          parseLine_dropCR]
        refine ⟨fun dns => ?_, ih.2⟩
        rw [parseLine_skip dns l hb]
        simpa using ih.1 dns
      · have hk : isShortBlankOrComment l = false := by
          simp [isShortBlankOrComment, hb]
        simp only [List.filter_cons, hk, bufio.scan, if_neg hlong, List.foldl_cons]
        refine ⟨fun dns => ?_, ?_⟩
        · simpa using ih.1 _
        · simpa using ih.2

theorem parseResolvConf_openOn (disk : String → Except String (List String))
    (filename : String) (lines : List String) (h : disk filename = .ok lines) :
    parseResolvConf (openOn disk) filename =
      match (bufio.scan lines).err with
      | some e => .error e
      | none => .ok ((bufio.scan lines).lines.foldl parseLine {}) := by
  simp only [parseResolvConf, openOn, h, scanAll]

/-- C9 (amended): two resolver files that differ only by lines that are empty,
white space only, or start (after white space) with `#` or `;`, and that are
shorter than the scanner's 64 KiB buffer, inserted or deleted at any positions
and in any number, give the same result of `parseResolvConf` (same name
servers, domain, search list and options, or the same error). -/
theorem parseResolvConf_blank_comment (disk disk' : String → Except String (List String))
    (filename filename' : String) (lines lines' : List String)
    (h : disk filename = .ok lines) (h' : disk' filename' = .ok lines')
    (hsame : lines.filter (fun l => !isShortBlankOrComment l) =
      lines'.filter (fun l => !isShortBlankOrComment l)) :
    parseResolvConf (openOn disk) filename = parseResolvConf (openOn disk') filename' := by
  rw [parseResolvConf_openOn disk filename lines h,
    parseResolvConf_openOn disk' filename' lines' h']
  rw [(scan_filter lines).1, (scan_filter lines).2, (scan_filter lines').1,
    (scan_filter lines').2, hsame]

theorem parseResolvConf_blank_comment_witness :
    parseResolvConf (openOn demo.disk) "/etc/resolv.conf" =
      parseResolvConf (openOn demo.diskShort) "/etc/resolv.conf" :=
  parseResolvConf_blank_comment demo.disk demo.diskShort "/etc/resolv.conf"
    "/etc/resolv.conf" demo.resolvLines
    ["  ; local", "domain example.org", "\t", "nameserver 10.0.0.53",
     "search example.org example.net", "#", "nameserver 10.0.1.53", "\r"]
    (by rfl) (by rfl) (by decide)

theorem utf8ByteSize_replicate (n : Nat) :
    (String.mk (List.replicate n '#')).utf8ByteSize = n := by
  induction n with
  | zero => rfl
  | succ k ih =>
    rw [List.replicate_succ]
    show (String.mk (List.replicate k '#')).utf8ByteSize + Char.utf8Size '#' = k + 1
    rw [ih]
    rfl

theorem longComment_size : demo.longComment.utf8ByteSize = 70000 := by
  unfold demo.longComment
  exact utf8ByteSize_replicate 70000

theorem longComment_comment : isBlankOrComment demo.longComment = true := by
  unfold demo.longComment isBlankOrComment
  rw [show (70000 : Nat) = 69999 + 1 from rfl, List.replicate_succ]
  simp only [List.dropWhile_cons_of_neg (show ¬ unicode.IsSpace '#' = true by decide)]
  rfl

theorem scan_too_long (l : String) (ls : List String)
    (h : bufio.MaxScanTokenSize ≤ l.utf8ByteSize) :
    bufio.scan (l :: ls) = { lines := [], err := some "bufio.Scanner: token too long" } := by
  simp only [bufio.scan, if_pos h]

/-- C9 as stated fails: putting a comment line of 70000 characters in front of
a resolver file that parses turns the result into the scanner's error. -/
theorem parseResolvConf_long_comment :
    isBlankOrComment demo.longComment = true ∧
    parseResolvConf (openOn demo.disk) "/etc/resolv.conf" =
      .ok { Nameservers := ["10.0.0.53", "10.0.1.53"], Domain := "example.org",
            Search := ["example.org", "example.net"] } ∧
    parseResolvConf (openOn demo.diskLong) "/etc/resolv.conf" =
      .error "bufio.Scanner: token too long" := by
  refine ⟨longComment_comment, by rfl, ?_⟩
  have hlong : bufio.MaxScanTokenSize ≤ demo.longComment.utf8ByteSize := by
    rw [longComment_size]; decide
  rw [parseResolvConf_openOn demo.diskLong "/etc/resolv.conf"
    (demo.longComment :: demo.resolvLines) (by rfl), scan_too_long _ _ hlong]

/-- C10: for a resolver file read without error, the domain returned by
`parseResolvConf` is the second field of the last line whose first field is
`domain` and that has a second field; with no such line the domain is empty. -/
theorem parseResolvConf_domain (osOpen : String → Except String File)
    (filename : String) (lines : List String)
    (h : osOpen filename = .ok { lines := lines, err := none }) :
    ∃ dns, parseResolvConf osOpen filename = .ok dns ∧
      (∀ before line after arg, lines = before ++ line :: after →
        directiveArg "domain" line = some arg →
        (∀ l ∈ after, directiveArg "domain" l = none) → dns.Domain = arg) ∧
      ((∀ l ∈ lines, directiveArg "domain" l = none) → dns.Domain = "") := by
  refine ⟨scanAll lines, parseResolvConf_ok osOpen filename lines h, ?_, ?_⟩
  · intro before line after arg hl harg hafter
    subst hl
    rw [scanAll, List.foldl_append, List.foldl_cons, foldl_parseLine_domain_keep _ _ hafter,
      parseLine_domain, harg]
    rfl
  · intro hnone
    rw [scanAll, foldl_parseLine_domain_keep _ _ hnone]

theorem parseResolvConf_domain_witness :
    ∃ dns, parseResolvConf demo.osOpen "/etc/resolv.conf" = .ok dns ∧
      dns.Domain = "example.org" := by
  obtain ⟨dns, h1, h2, _⟩ :=
    parseResolvConf_domain demo.osOpen "/etc/resolv.conf" demo.resolvLines (by rfl)
  exact ⟨dns, h1, h2 ["# generated"] "domain example.org"
    ["nameserver 10.0.0.53", "", "search example.org example.net", "nameserver 10.0.1.53"]
    "example.org" (by rfl) (by decide) (by decide)⟩

/-! ## The query string -/

theorem utf8_decode_encodeChar (c : Char) (rest : List Nat) :
    utf8.decodeLoop (utf8.encodeChar c ++ rest) 0 0 = c :: utf8.decodeLoop rest 0 0 := by
  have hv : c.toNat < 0x110000 := by
    have := c.valid
    rcases this with h | h
    · exact Nat.lt_trans h (by decide)
    · exact h.2
  unfold utf8.encodeChar
  by_cases h1 : c.toNat < 0x80
  · simp [h1, utf8.decodeLoop]
  · by_cases h2 : c.toNat < 0x800
    · have a1 : ¬ (0xC0 + c.toNat / 64 < 0x80) := by omega
      have a2 : 0xC0 + c.toNat / 64 < 0xE0 := by omega
      have a3 : (0xC0 + c.toNat / 64 - 0xC0) * 64 + (0x80 + c.toNat % 64 - 0x80) = c.toNat := by
        omega
      simp only [h1, h2, if_false, if_true, List.cons_append, List.nil_append,
        utf8.decodeLoop, a1, a2, a3, Char.ofNat_toNat]
    · by_cases h3 : c.toNat < 0x10000
      · have a1 : ¬ (0xE0 + c.toNat / 4096 < 0x80) := by omega
        have a2 : ¬ (0xE0 + c.toNat / 4096 < 0xE0) := by omega
        have a3 : 0xE0 + c.toNat / 4096 < 0xF0 := by omega
        have a4 : ((0xE0 + c.toNat / 4096 - 0xE0) * 64 + (0x80 + c.toNat / 64 % 64 - 0x80)) * 64 +
            (0x80 + c.toNat % 64 - 0x80) = c.toNat := by omega
        simp only [h1, h2, h3, if_false, if_true, List.cons_append, List.nil_append,
          utf8.decodeLoop, a1, a2, a3, a4, Char.ofNat_toNat, Nat.succ_ne_zero,
          Nat.reduceEqDiff]
      · have a1 : ¬ (0xF0 + c.toNat / 262144 < 0x80) := by omega
        have a2 : ¬ (0xF0 + c.toNat / 262144 < 0xE0) := by omega
        have a3 : ¬ (0xF0 + c.toNat / 262144 < 0xF0) := by omega
        have a4 : (((0xF0 + c.toNat / 262144 - 0xF0) * 64 +
            (0x80 + c.toNat / 4096 % 64 - 0x80)) * 64 + (0x80 + c.toNat / 64 % 64 - 0x80)) * 64 +
            (0x80 + c.toNat % 64 - 0x80) = c.toNat := by omega
        simp only [h1, h2, h3, if_false, if_true, List.cons_append, List.nil_append,
          utf8.decodeLoop, a1, a2, a3, a4, Char.ofNat_toNat, Nat.succ_ne_zero,
          Nat.reduceEqDiff]

/-- Reading back the bytes of a text gives the text. -/
theorem utf8_decode_encode (s : List Char) : utf8.decode (utf8.encode s) = s := by
  unfold utf8.decode
  induction s with
  | nil => rfl
  | cons c cs ih =>
    have e : utf8.encode (c :: cs) = utf8.encodeChar c ++ utf8.encode cs := by
      simp [utf8.encode]
    rw [e, utf8_decode_encodeChar, ih]

theorem utf8_encodeChar_lt (c : Char) : ∀ b ∈ utf8.encodeChar c, b < 256 := by
  have hv : c.toNat < 0x110000 := by
    have := c.valid
    rcases this with h | h
    · exact Nat.lt_trans h (by decide)
    · exact h.2
  intro b hb
  unfold utf8.encodeChar at hb
  simp only at hb
  split_ifs at hb <;> simp at hb <;> omega

theorem utf8_encode_lt (s : List Char) : ∀ b ∈ utf8.encode s, b < 256 := by
  intro b hb
  simp only [utf8.encode, List.mem_flatten, List.mem_map] at hb
  obtain ⟨l, ⟨c, _, rfl⟩, hb⟩ := hb
  exact utf8_encodeChar_lt c b hb

theorem hex_digit : ∀ d, d < 16 →
    url.ishex (url.upperhex d) = true ∧ url.unhex (url.upperhex d) = d := by
  decide

set_option maxRecDepth 100000 in
theorem escapeByte_safe : ∀ b, b < 256 → ∀ x ∈ url.escapeByte b,
    x < 128 ∧ x ≠ 35 ∧ x ≠ 38 ∧ x ≠ 59 ∧ x ≠ 61 := by
  decide

theorem ofNat_ascii : ∀ x, x < 128 →
    (Char.ofNat x).toNat = x ∧ utf8.encodeChar (Char.ofNat x) = [x] := by
  decide

theorem unescape_escapeByte (b : Nat) (hb : b < 256) (rest : List Nat) :
    url.unescape (url.escapeByte b ++ rest) = (url.unescape rest).map (fun bs => b :: bs) := by
  unfold url.escapeByte
  by_cases hs : url.shouldEscape b = true
  · by_cases h32 : b = 32
    · subst h32
      rw [if_pos hs, if_pos rfl, List.singleton_append, url.unescape.eq_def]
      simp
    · obtain ⟨x1, x2⟩ := hex_digit (b / 16) (by omega)
      obtain ⟨y1, y2⟩ := hex_digit (b % 16) (by omega)
      have hb' : b / 16 * 16 + b % 16 = b := by omega
      rw [if_pos hs, if_neg h32, url.unescape.eq_def]
      simp [x1, x2, y1, y2, hb']
  · have h37 : b ≠ 37 := by
      intro h; subst h; exact hs (by decide)
    have h43 : b ≠ 43 := by
      intro h; subst h; exact hs (by decide)
    rw [if_neg hs, List.singleton_append, url.unescape.eq_def]
    simp [h37, h43]

theorem unescape_escape (bs : List Nat) (h : ∀ b ∈ bs, b < 256) :
    url.unescape ((bs.map url.escapeByte).flatten) = some bs := by
  induction bs with
  | nil => rfl
  | cons b bs ih =>
    simp only [List.map_cons, List.flatten_cons]
    rw [unescape_escapeByte b (h b (List.mem_cons_self _ _)),
      ih (fun x hx => h x (List.mem_cons_of_mem _ hx))]
    rfl

theorem escaped_safe (bs : List Nat) (h : ∀ b ∈ bs, b < 256) :
    ∀ x ∈ (bs.map url.escapeByte).flatten, x < 128 ∧ x ≠ 35 ∧ x ≠ 38 ∧ x ≠ 59 ∧ x ≠ 61 := by
  intro x hx
  simp only [List.mem_flatten, List.mem_map] at hx
  obtain ⟨l, ⟨b, hb, rfl⟩, hx⟩ := hx
  exact escapeByte_safe b (h b hb) x hx

theorem utf8_encode_ascii (xs : List Nat) (h : ∀ x ∈ xs, x < 128) :
    utf8.encode (xs.map Char.ofNat) = xs := by
  induction xs with
  | nil => rfl
  | cons x xs ih =>
    have e : utf8.encode ((x :: xs).map Char.ofNat) =
        utf8.encodeChar (Char.ofNat x) ++ utf8.encode (xs.map Char.ofNat) := by
      simp [utf8.encode]
    rw [e, (ofNat_ascii x (h x (List.mem_cons_self _ _))).2,
      ih (fun y hy => h y (List.mem_cons_of_mem _ hy))]
    rfl

/-- Unescaping an escaped string gives the string back. -/
theorem QueryUnescape_QueryEscape (s : String) :
    url.QueryUnescape (url.QueryEscape s).data = some s := by
  have hlt := utf8_encode_lt s.data
  have hsafe := escaped_safe (utf8.encode s.data) hlt
  unfold url.QueryUnescape url.QueryEscape
  simp only
  rw [utf8_encode_ascii _ (fun x hx => (hsafe x hx).1), unescape_escape _ hlt]
  simp [utf8_decode_encode]

/-- An escaped string holds none of `#`, `&`, `;`, `=`. -/
theorem QueryEscape_safe (s : String) (c : Char) (hc : c ∈ (url.QueryEscape s).data) :
    c ≠ '#' ∧ c ≠ '&' ∧ c ≠ ';' ∧ c ≠ '=' := by
  have hsafe := escaped_safe (utf8.encode s.data) (utf8_encode_lt s.data)
  unfold url.QueryEscape at hc
  simp only [List.mem_map] at hc
  obtain ⟨x, hx, rfl⟩ := hc
  obtain ⟨h1, h2, h3, h4, h5⟩ := hsafe x hx
  have ht := (ofNat_ascii x h1).1
  refine ⟨?_, ?_, ?_, ?_⟩ <;> intro h <;> rw [h] at ht <;>
    first | exact h2 ht.symm | exact h3 ht.symm | exact h4 ht.symm | exact h5 ht.symm

theorem cut_append (sep : Char) (a b : List Char) (h : ∀ c ∈ a, c ≠ sep) :
    url.cut sep (a ++ sep :: b) = (a, b) := by
  induction a with
  | nil => simp [url.cut]
  | cons x xs ih =>
    have hx : x ≠ sep := h x (List.mem_cons_self _ _)
    simp [url.cut, hx, ih (fun c hc => h c (List.mem_cons_of_mem _ hc))]

theorem cut_none (sep : Char) (a : List Char) (h : ∀ c ∈ a, c ≠ sep) :
    url.cut sep a = (a, []) := by
  induction a with
  | nil => rfl
  | cons x xs ih =>
    have hx : x ≠ sep := h x (List.mem_cons_self _ _)
    simp [url.cut, hx, ih (fun c hc => h c (List.mem_cons_of_mem _ hc))]

theorem splitOn_append (p : Char → Bool) (a rest cur : List Char)
    (h : ∀ c ∈ a, p c = false) :
    url.splitOn p (a ++ rest) cur = url.splitOn p rest (a.reverse ++ cur) := by
  induction a generalizing cur with
  | nil => rfl
  | cons x xs ih =>
    have hx : p x = false := h x (List.mem_cons_self _ _)
    have e : (x :: xs) ++ rest = x :: (xs ++ rest) := rfl
    rw [e]
    simp only [url.splitOn, hx, Bool.false_eq_true, if_false]
    rw [ih (x :: cur) (fun c hc => h c (List.mem_cons_of_mem _ hc))]
    simp

theorem splitOn_joinPieces (p : Char → Bool) (hp : p '&' = true) (ps : List (List Char))
    (hne : ps ≠ []) (h : ∀ q ∈ ps, ∀ c ∈ q, p c = false) :
    url.splitOn p (url.joinPieces ps) [] = ps := by
  induction ps with
  | nil => exact absurd rfl hne
  | cons q qs ih =>
    cases qs with
    | nil =>
      have e := splitOn_append p q [] [] (h q (List.mem_cons_self _ _))
      simp only [List.append_nil] at e
      simp [url.joinPieces, e, url.splitOn]
    | cons r rs =>
      have e := splitOn_append p q ('&' :: url.joinPieces (r :: rs)) []
        (h q (List.mem_cons_self _ _))
      have ih' := ih (by simp) (fun x hx => h x (List.mem_cons_of_mem _ hx))
      simp only [url.joinPieces, e, url.splitOn, hp, if_true, List.append_nil,
        List.reverse_reverse, ih']

theorem encodePair_safe (kv : String × String) (c : Char) (hc : c ∈ url.encodePair kv) :
    c ≠ '#' ∧ c ≠ '&' ∧ c ≠ ';' := by
  unfold url.encodePair at hc
  simp only [List.mem_append, List.mem_cons] at hc
  rcases hc with h | h | h
  · have := QueryEscape_safe kv.1 c h
    exact ⟨this.1, this.2.1, this.2.2.1⟩
  · subst h; decide
  · have := QueryEscape_safe kv.2 c h
    exact ⟨this.1, this.2.1, this.2.2.1⟩

theorem parsePiece_encodePair (kv : String × String) :
    url.parsePiece (url.encodePair kv) = some kv := by
  have hc := cut_append '=' (url.QueryEscape kv.1).data (url.QueryEscape kv.2).data
    (fun c hc => (QueryEscape_safe kv.1 c hc).2.2.2)
  have hne : url.encodePair kv ≠ [] := by
    unfold url.encodePair; simp
  unfold url.parsePiece
  rw [if_neg hne]
  unfold url.encodePair
  rw [hc]
  simp only [QueryUnescape_QueryEscape]

/-- Parsing the query that encodes a list of pairs gives the pairs back. -/
theorem ParseQuery_encodePairs (semicolons : Bool) (pairs : url.Values) :
    url.ParseQuery semicolons (String.mk (url.joinPieces (pairs.map url.encodePair))) =
      pairs := by
  unfold url.ParseQuery
  cases pairs with
  | nil => simp [url.joinPieces, url.splitOn, url.parsePiece]
  | cons kv kvs =>
    have hsplit := splitOn_joinPieces (fun c => c == '&' || (semicolons && c == ';'))
      (by simp) ((kv :: kvs).map url.encodePair) (by simp) (by
        intro q hq c hc
        simp only [List.mem_map] at hq
        obtain ⟨x, _, rfl⟩ := hq
        obtain ⟨_, h2, h3⟩ := encodePair_safe x c hc
        simp [h2, h3])
    simp only [hsplit]
    rw [List.filterMap_map]
    have hf : ∀ x : String × String,
        ((fun piece : List Char =>
          if (!semicolons && piece.any (fun c => c == ';')) = true then none
          else url.parsePiece piece) ∘ url.encodePair) x = some x := by
      intro x
      have hany : (url.encodePair x).any (fun c => c == ';') = false := by
        rw [List.any_eq_false]
        intro c hc
        simpa using (encodePair_safe x c hc).2.2
      have hmem : ';' ∉ url.encodePair x := fun h => (encodePair_safe x ';' h).2.2 rfl
      simp [hmem, parsePiece_encodePair]
    rw [List.filterMap_congr (g := some) (fun x _ => hf x)]
    simp

theorem mem_joinPieces (ps : List (List Char)) (c : Char) (hc : c ∈ url.joinPieces ps) :
    c = '&' ∨ ∃ q ∈ ps, c ∈ q := by
  induction ps with
  | nil => simp [url.joinPieces] at hc
  | cons q qs ih =>
    cases qs with
    | nil => exact Or.inr ⟨q, List.mem_cons_self _ _, by simpa [url.joinPieces] using hc⟩
    | cons r rs =>
      simp only [url.joinPieces, List.mem_append, List.mem_cons] at hc
      rcases hc with h | h | h
      · exact Or.inr ⟨q, List.mem_cons_self _ _, h⟩
      · exact Or.inl h
      · rcases ih (by simpa [url.joinPieces] using h) with h' | ⟨x, hx, hcx⟩
        · exact Or.inl h'
        · exact Or.inr ⟨x, List.mem_cons_of_mem _ hx, hcx⟩

/-- The query of the URL `remote?query` is the encoded query, when the remote
has no `?` and no `#` of its own: the server reads the sorted pairs. -/
theorem ParseQuery_requestURL (semicolons : Bool) (remote : String) (v : url.Values)
    (hq : '?' ∉ remote.data) (hf : '#' ∉ remote.data) :
    url.ParseQuery semicolons (url.rawQuery (remote ++ "?" ++ v.Encode)) =
      v.insertionSort (fun a b => url.keyLE a b = true) := by
  have hdata : (remote ++ "?" ++ v.Encode).data = remote.data ++ '?' :: v.Encode.data := by
    simp [String.data_append]
  have hfrag : ∀ c ∈ remote.data ++ '?' :: v.Encode.data, c ≠ '#' := by
    intro c hc
    simp only [List.mem_append, List.mem_cons] at hc
    rcases hc with h | h | h
    · intro e; exact hf (e ▸ h)
    · subst h; decide
    · unfold url.Values.Encode at h
      rcases mem_joinPieces _ c h with h' | ⟨q, hq', hcq⟩
      · subst h'; decide
      · simp only [List.mem_map] at hq'
        obtain ⟨x, _, rfl⟩ := hq'
        exact (encodePair_safe x c hcq).1
  have hraw : url.rawQuery (remote ++ "?" ++ v.Encode) = v.Encode := by
    unfold url.rawQuery
    rw [hdata, cut_none '#' _ hfrag]
    simp only
    rw [cut_append '?' remote.data v.Encode.data (fun c hc e => hq (e ▸ hc))]
  rw [hraw]
  exact ParseQuery_encodePairs semicolons _

/-! ## The client plugin -/

theorem cons_split_unique (a b x y : List Char) (ha : '/' ∉ a) (hb : '/' ∉ b)
    (h : a ++ '/' :: x = b ++ '/' :: y) : a = b ∧ x = y := by
  induction a generalizing b with
  | nil =>
    cases b with
    | nil => exact ⟨rfl, by simpa using h⟩
    | cons d ds =>
      simp only [List.nil_append, List.cons_append, List.cons.injEq] at h
      exact absurd (h.1 ▸ List.mem_cons_self _ _) hb
  | cons c cs ih =>
    cases b with
    | nil =>
      simp only [List.nil_append, List.cons_append, List.cons.injEq] at h
      exact absurd (h.1 ▸ List.mem_cons_self _ _) ha
    | cons d ds =>
      simp only [List.cons_append, List.cons.injEq] at h
      have := ih ds (fun hm => ha (List.mem_cons_of_mem _ hm))
        (fun hm => hb (List.mem_cons_of_mem _ hm)) h.2
      exact ⟨by rw [h.1, this.1], this.2⟩

theorem compositeKey_data (p c : String) :
    (client.compositeKey p c).data = p.data ++ '/' :: c.data := by
  simp [client.compositeKey, String.data_append]

/-- C6 (amended): when no pool ID contains `/`, or no container ID contains
`/`, distinct (pool, container) pairs have distinct composite keys. -/
theorem compositeKey_unique (p1 c1 p2 c2 : String)
    (hslash : ('/' ∉ p1.data ∧ '/' ∉ p2.data) ∨ ('/' ∉ c1.data ∧ '/' ∉ c2.data))
    (hne : (p1, c1) ≠ (p2, c2)) :
    client.compositeKey p1 c1 ≠ client.compositeKey p2 c2 := by
  intro h
  have hd := congrArg String.data h
  rw [compositeKey_data, compositeKey_data] at hd
  apply hne
  rcases hslash with ⟨h1, h2⟩ | ⟨h1, h2⟩
  · obtain ⟨e1, e2⟩ := cons_split_unique _ _ _ _ h1 h2 hd
    rw [String.ext e1, String.ext e2]
  · have hr := congrArg List.reverse hd
    simp only [List.reverse_append, List.reverse_cons, List.append_assoc,
      List.singleton_append] at hr
    obtain ⟨e1, e2⟩ := cons_split_unique _ _ _ _
      (by simpa using h1) (by simpa using h2) hr
    rw [String.ext (List.reverse_injective e2), String.ext (List.reverse_injective e1)]

theorem compositeKey_unique_witness :
    client.compositeKey "pool1" "abc" ≠ client.compositeKey "pool2" "abc" :=
  compositeKey_unique "pool1" "abc" "pool2" "abc" (Or.inl ⟨by decide, by decide⟩) (by decide)

/-- C6 as stated fails: two distinct (pool, container) pairs with the same key. -/
theorem compositeKey_collision :
    (("a", "b/c") : String × String) ≠ ("a/b", "c") ∧
    client.compositeKey "a" "b/c" = client.compositeKey "a/b" "c" := by
  decide

theorem buildParams_get (cmd : String) (ipamConf : client.IPAMConfig) (confVersion : String)
    (containerID : String) :
    url.Values.Get (client.buildParams cmd ipamConf confVersion containerID) "cmd" = cmd ∧
    url.Values.Get (client.buildParams cmd ipamConf confVersion containerID) "scope" =
      ipamConf.Scope ∧
    url.Values.Get (client.buildParams cmd ipamConf confVersion containerID) "version" =
      confVersion ∧
    url.Values.Get (client.buildParams cmd ipamConf confVersion containerID) "containerid" =
      client.compositeKey ipamConf.ID containerID := by
  have e : client.buildParams cmd ipamConf confVersion containerID =
      [("cmd", cmd), ("scope", ipamConf.Scope), ("version", confVersion),
       ("containerid", client.compositeKey ipamConf.ID containerID)] := rfl
  rw [e]
  refine ⟨?_, ?_, ?_, ?_⟩ <;> simp [url.Values.Get, List.find?]

theorem compositeKey_ne_empty (p c : String) : client.compositeKey p c ≠ "" := by
  intro h
  have hd := congrArg String.data h
  rw [compositeKey_data] at hd
  simp at hd

theorem cmdDel_of_response {τ : Type} (env : client.ClientEnv) (get : client.Transport τ)
    (args : client.CmdArgs) (remote remote' : τ) (ipamConf : client.IPAMConfig)
    (confVersion : String) (resp : client.HTTPResponse)
    (hload : client.LoadIPAMConfig env args.StdinData args.Args = .ok (ipamConf, confVersion))
    (hget : get ipamConf.Remote
      (client.buildParams "del" ipamConf confVersion args.ContainerID) remote =
        (.ok resp, remote')) :
    client.cmdDel env get args remote =
      (if resp.StatusCode ≠ http.StatusOK then
        some ("failed to call remote " ++ env.quote ipamConf.Remote ++
          ": unexpected status code " ++ toString resp.StatusCode)
       else none, remote') := by
  simp only [client.cmdDel, hload, hget]
  split_ifs <;> rfl

theorem cmdAdd_of_response {τ : Type} (env : client.ClientEnv) (get : client.Transport τ)
    (args : client.CmdArgs) (remote remote' : τ) (ipamConf : client.IPAMConfig)
    (confVersion : String) (resp : client.HTTPResponse)
    (hload : client.LoadIPAMConfig env args.StdinData args.Args = .ok (ipamConf, confVersion))
    (hget : get ipamConf.Remote
      (client.buildParams "add" ipamConf confVersion args.ContainerID) remote =
        (.ok resp, remote'))
    (hstatus : resp.StatusCode ≠ http.StatusOK) :
    client.cmdAdd env get args remote =
      (some ("failed to call remote " ++ env.quote ipamConf.Remote ++
          ": unexpected status code " ++ toString resp.StatusCode), remote') := by
  simp only [client.cmdAdd, hload, hget, if_pos hstatus]

/-- C7: for a configuration that loads and a response the remote returns,
`cmdDel` returns `nil` exactly when the status code is 200, whatever the body;
and on a status code other than 200 `cmdAdd` returns an error whose message
contains the status code, whatever the body, and the outcome does not depend on
the body decoder or on `PrintResult`. -/
theorem cmd_status_code {τ : Type} (env : client.ClientEnv) (get : client.Transport τ)
    (args : client.CmdArgs) (remote : τ) (ipamConf : client.IPAMConfig)
    (confVersion : String)
    (hload : client.LoadIPAMConfig env args.StdinData args.Args =
      .ok (ipamConf, confVersion)) :
    (∀ resp remote', get ipamConf.Remote
        (client.buildParams "del" ipamConf confVersion args.ContainerID) remote =
          (.ok resp, remote') →
      ((client.cmdDel env get args remote).1 = none ↔ resp.StatusCode = 200)) ∧
    (∀ resp remote', get ipamConf.Remote
        (client.buildParams "add" ipamConf confVersion args.ContainerID) remote =
          (.ok resp, remote') →
      resp.StatusCode ≠ 200 →
      (∃ a b, (client.cmdAdd env get args remote).1 =
        some (a ++ toString resp.StatusCode ++ b)) ∧
      ∀ u p, client.cmdAdd { env with unmarshalResult := u, PrintResult := p } get args remote =
        client.cmdAdd env get args remote) := by
  constructor
  · intro resp remote' hget
    rw [cmdDel_of_response env get args remote remote' ipamConf confVersion resp hload hget]
    by_cases h : resp.StatusCode = 200
    · simp [h, http.StatusOK]
    · simp [h, http.StatusOK]
  · intro resp remote' hget hstatus
    rw [cmdAdd_of_response env get args remote remote' ipamConf confVersion resp hload hget
      hstatus]
    refine ⟨⟨"failed to call remote " ++ env.quote ipamConf.Remote ++
      ": unexpected status code ", "", by simp [String.append_assoc]⟩, ?_⟩
    intro u p
    exact cmdAdd_of_response { env with unmarshalResult := u, PrintResult := p } get args
      remote remote' ipamConf confVersion resp hload hget hstatus

theorem cmd_status_code_witness :
    ((client.cmdDel demo.clientEnv (demo.fixedRemote 204 "ok") demo.args ()).1 = none ↔
      204 = 200) ∧
    ∃ a b, (client.cmdAdd demo.clientEnv (demo.fixedRemote 204 "ok") demo.args ()).1 =
      some (a ++ toString 204 ++ b) :=
  have h := cmd_status_code demo.clientEnv (demo.fixedRemote 204 "ok") demo.args ()
    { Name := "net0", Typ := "remote", Remote := "http://ipam.example", ID := "pool1",
      Scope := "blue" } "0.3.1" (by rfl)
  ⟨h.1 { StatusCode := 204, Body := .ok "ok" } () (by rfl),
   (h.2 { StatusCode := 204, Body := .ok "ok" } () (by rfl) (by decide)).1⟩

theorem LoadIPAMConfig_ok (env : client.ClientEnv) (bytes envArgs : String) (n : client.Net)
    (ipam : client.IPAMConfig) (hnet : env.unmarshalNet bytes = .ok n)
    (hipam : n.IPAM = some ipam) :
    client.LoadIPAMConfig env bytes envArgs = .ok ({ ipam with Name := n.Name }, n.CNIVersion) := by
  simp only [client.LoadIPAMConfig, hnet, hipam]

theorem buildParams_sorted (cmd : String) (ipamConf : client.IPAMConfig)
    (confVersion containerID : String) :
    (client.buildParams cmd ipamConf confVersion containerID).insertionSort
        (fun a b => url.keyLE a b = true) =
      [("cmd", cmd), ("containerid", client.compositeKey ipamConf.ID containerID),
       ("scope", ipamConf.Scope), ("version", confVersion)] := by
  rfl

/-- What the server reads from the URL the client builds, when the remote has
no `?` and no `#` of its own. -/
theorem query_of_requestURL (semicolons : Bool) (cmd : String) (ipamConf : client.IPAMConfig)
    (confVersion containerID : String)
    (hq : '?' ∉ ipamConf.Remote.data) (hf : '#' ∉ ipamConf.Remote.data) :
    url.ParseQuery semicolons (url.rawQuery (client.requestURL ipamConf.Remote
        (client.buildParams cmd ipamConf confVersion containerID))) =
      [("cmd", cmd), ("containerid", client.compositeKey ipamConf.ID containerID),
       ("scope", ipamConf.Scope), ("version", confVersion)] := by
  rw [client.requestURL, ParseQuery_requestURL semicolons _ _ hq hf, buildParams_sorted]

theorem sorted_get (cmd key scope version : String) :
    url.Values.Get [("cmd", cmd), ("containerid", key), ("scope", scope),
      ("version", version)] "cmd" = cmd ∧
    url.Values.Get [("cmd", cmd), ("containerid", key), ("scope", scope),
      ("version", version)] "scope" = scope ∧
    url.Values.Get [("cmd", cmd), ("containerid", key), ("scope", scope),
      ("version", version)] "version" = version ∧
    url.Values.Get [("cmd", cmd), ("containerid", key), ("scope", scope),
      ("version", version)] "containerid" = key := by
  refine ⟨?_, ?_, ?_, ?_⟩ <;> simp [url.Values.Get, List.find?]

/-- C5 (amended): for a client configuration with an ipam block, a non-empty
cniVersion, a non-empty scope that is a key of the server's ranges table and a
remote URL without `?` and `#`, and any container ID, when the two GET requests
reach the server and are answered by its handler, the server's resolver file
(if configured) parses, `Get` on the composite key succeeds, `Release` of that
key succeeds in the store `Get` left, and the result is serialized, decoded and
printed without error: `cmdAdd` returns `nil` after one allocator call, `Get`
on the key `ipam.ID + "/" + containerID`; the following `cmdDel` returns `nil`
after one allocator call, `Release` on the same key and range set. -/
theorem add_then_del {σ : Type} (cenv : client.ClientEnv) (senv : server.ServerEnv σ)
    (conf : server.IPAMConfig) (get : client.Transport (World σ)) (semicolons : Bool)
    (args : client.CmdArgs) (st : World σ)
    (n : client.Net) (ipam : client.IPAMConfig) (rs : RangeSet) (dns : DNS) (A : IPConfig)
    (s1 s2 : σ) (data : String) (decoded : Result)
    (hnet : cenv.unmarshalNet args.StdinData = .ok n) (hipam : n.IPAM = some ipam)
    (hver : n.CNIVersion ≠ "") (hs0 : ipam.Scope ≠ "")
    (hscope : conf.Ranges.lookup ipam.Scope = some rs)
    (hq : '?' ∉ ipam.Remote.data) (hf : '#' ∉ ipam.Remote.data)
    (hreachAdd : get ipam.Remote
        (client.buildParams "add" { ipam with Name := n.Name } n.CNIVersion args.ContainerID)
        st =
      client.wire semicolons senv conf ipam.Remote
        (client.buildParams "add" { ipam with Name := n.Name } n.CNIVersion args.ContainerID)
        st)
    (hreachDel : get ipam.Remote
        (client.buildParams "del" { ipam with Name := n.Name } n.CNIVersion args.ContainerID)
        { store := s1, calls := st.calls ++
          [AllocCall.get rs (client.compositeKey ipam.ID args.ContainerID)] } =
      client.wire semicolons senv conf ipam.Remote
        (client.buildParams "del" { ipam with Name := n.Name } n.CNIVersion args.ContainerID)
        { store := s1, calls := st.calls ++
          [AllocCall.get rs (client.compositeKey ipam.ID args.ContainerID)] })
    (hdns : (conf.ResolveConf = "" ∧ dns = {}) ∨
      (conf.ResolveConf ≠ "" ∧ parseResolvConf senv.osOpen conf.ResolveConf = .ok dns))
    (hget : senv.allocator.Get rs st.store (client.compositeKey ipam.ID args.ContainerID) =
      (.ok A, s1))
    (hrel : senv.allocator.Release rs s1 (client.compositeKey ipam.ID args.ContainerID) =
      (none, s2))
    (hm : senv.marshal { IPs := [A], Routes := conf.Routes, DNS := dns } = .ok data)
    (hu : cenv.unmarshalResult data = .ok decoded)
    (hp : cenv.PrintResult decoded n.CNIVersion = none) :
    client.cmdAdd cenv get args st =
      (none, { store := s1, calls := st.calls ++
        [AllocCall.get rs (client.compositeKey ipam.ID args.ContainerID)] }) ∧
    client.cmdDel cenv get args
        { store := s1, calls := st.calls ++
          [AllocCall.get rs (client.compositeKey ipam.ID args.ContainerID)] } =
      (none, { store := s2, calls := st.calls ++
        [AllocCall.get rs (client.compositeKey ipam.ID args.ContainerID)] ++
        [AllocCall.release rs (client.compositeKey ipam.ID args.ContainerID)] }) := by
  have hload := LoadIPAMConfig_ok cenv args.StdinData args.Args n ipam hnet hipam
  have qa := query_of_requestURL semicolons "add" { ipam with Name := n.Name } n.CNIVersion
    args.ContainerID hq hf
  have qd := query_of_requestURL semicolons "del" { ipam with Name := n.Name } n.CNIVersion
    args.ContainerID hq hf
  obtain ⟨a1, a2, a3, a4⟩ := sorted_get "add"
    (client.compositeKey ipam.ID args.ContainerID) ipam.Scope n.CNIVersion
  obtain ⟨d1, d2, d3, d4⟩ := sorted_get "del"
    (client.compositeKey ipam.ID args.ContainerID) ipam.Scope n.CNIVersion
  have hk := compositeKey_ne_empty ipam.ID args.ContainerID
  have hadd := serve_add_eq senv conf
    [("cmd", "add"), ("containerid", client.compositeKey ipam.ID args.ContainerID),
     ("scope", ipam.Scope), ("version", n.CNIVersion)]
    st rs dns A s1 data (by rw [a4]; exact hk) (by rw [a2]; exact hs0) (by rw [a3]; exact hver)
    (by rw [a2]; exact hscope) a1 hdns (by rw [a4]; exact hget) hm
  have hdel := serve_del_eq senv conf
    [("cmd", "del"), ("containerid", client.compositeKey ipam.ID args.ContainerID),
     ("scope", ipam.Scope), ("version", n.CNIVersion)]
    { store := s1, calls := st.calls ++
        [AllocCall.get rs (client.compositeKey ipam.ID args.ContainerID)] } rs s2
    (by rw [d4]; exact hk) (by rw [d2]; exact hs0) (by rw [d3]; exact hver)
    (by rw [d2]; exact hscope) d1 (by rw [d4]; exact hrel)
  rw [a4] at hadd
  rw [d4] at hdel
  constructor
  · simp only [client.cmdAdd, hload, hreachAdd, client.wire, qa, hadd, http.StatusOK, ne_eq,
      not_true_eq_false, if_false, hu, hp]
  · simp only [client.cmdDel, hload, hreachDel, client.wire, qd, hdel, http.StatusOK, ne_eq,
      not_true_eq_false, if_false]

theorem add_then_del_witness :
    client.cmdAdd demo.clientEnv (client.wire false demo.env demo.confDNS) demo.args
        demo.emptyWorld =
      (none, { store := ["pool1/abc"],
               calls := [] ++ [AllocCall.get demo.blueRange (client.compositeKey "pool1" "abc")] }) ∧
    client.cmdDel demo.clientEnv (client.wire false demo.env demo.confDNS) demo.args
        { store := ["pool1/abc"],
          calls := [] ++ [AllocCall.get demo.blueRange (client.compositeKey "pool1" "abc")] } =
      (none, { store := [],
               calls := [] ++ [AllocCall.get demo.blueRange (client.compositeKey "pool1" "abc")] ++
                 [AllocCall.release demo.blueRange (client.compositeKey "pool1" "abc")] }) :=
  add_then_del demo.clientEnv demo.env demo.confDNS (client.wire false demo.env demo.confDNS)
    false demo.args demo.emptyWorld
    { Name := "net0", CNIVersion := "0.3.1",
      IPAM := some { Name := "", Typ := "remote", Remote := "http://ipam.example",
                     ID := "pool1", Scope := "blue" } }
    { Name := "", Typ := "remote", Remote := "http://ipam.example", ID := "pool1",
      Scope := "blue" }
    demo.blueRange
    { Nameservers := ["10.0.0.53", "10.0.1.53"], Domain := "example.org",
      Search := ["example.org", "example.net"] }
    { Version := "4", Interface := none, Address := "10.0.0.2/24", Gateway := "10.0.0.1" }
    ["pool1/abc"] [] "ips=10.0.0.2/24 dns=10.0.0.53,10.0.1.53"
    { IPs := [{ Version := "4", Interface := none,
                Address := "ips=10.0.0.2/24 dns=10.0.0.53,10.0.1.53", Gateway := "" }] }
    (by rfl) (by rfl) (by decide) (by decide) (by decide) (by decide) (by decide)
    (by rfl) (by rfl)
    (Or.inr ⟨by decide, by rfl⟩) (by rfl) (by rfl) (by rfl) (by rfl) (by rfl)

/-- C5 as stated fails: against `demo.allocator`, whose `Get` always succeeds
and whose `Release` succeeds on every held key, and with every GET answered by
the server, (a) a configuration with an ipam block, a non-empty cniVersion and
the scope `""`, which is a key of the ranges table, has `cmdAdd` fail on status
400; (b) a configuration whose scope is in the table has `cmdAdd` fail on
status 500 when the server's resolver file cannot be opened; (c) a
configuration whose scope is in the table and whose remote URL already has a
query has `cmdAdd` fail on status 404, the server reading no `cmd`; (d) one
whose remote URL has a fragment has `cmdAdd` fail on status 400, the server
reading no query at all. -/
theorem add_fails_despite_allocator :
    ((demo.allocator.Get demo.blueRange [] "pool1/abc").1.toOption).isSome = true ∧
    (demo.allocator.Release demo.blueRange ["pool1/abc"] "pool1/abc").1 = none ∧
    ((demo.clientEnv.unmarshalNet demo.argsNoScope.StdinData).toOption =
      some { Name := "net0", CNIVersion := "0.3.1",
             IPAM := some { Name := "", Typ := "remote", Remote := "http://ipam.example",
                            ID := "pool1", Scope := "" } }) ∧
    demo.confEmptyScope.Ranges.lookup "" = some demo.blueRange ∧
    (client.cmdAdd demo.clientEnv (client.wire false demo.env demo.confEmptyScope)
        demo.argsNoScope demo.emptyWorld).1 =
      some "failed to call remote <http://ipam.example>: unexpected status code 400" ∧
    ((demo.clientEnv.unmarshalNet demo.args.StdinData).toOption =
      some { Name := "net0", CNIVersion := "0.3.1",
             IPAM := some { Name := "", Typ := "remote", Remote := "http://ipam.example",
                            ID := "pool1", Scope := "blue" } }) ∧
    demo.confMissing.Ranges.lookup "blue" = some demo.blueRange ∧
    (client.cmdAdd demo.clientEnv (client.wire false demo.env demo.confMissing)
        demo.args demo.emptyWorld).1 =
      some "failed to call remote <http://ipam.example>: unexpected status code 500" ∧
    ((demo.clientEnv.unmarshalNet demo.argsQuery.StdinData).toOption =
      some { Name := "net0", CNIVersion := "0.3.1",
             IPAM := some { Name := "", Typ := "remote",
                            Remote := "http://127.0.0.1:80/?x=1",
                            ID := "pool1", Scope := "blue" } }) ∧
    demo.conf.Ranges.lookup "blue" = some demo.blueRange ∧
    url.ParseQuery false (url.rawQuery (client.requestURL "http://127.0.0.1:80/?x=1"
        (client.buildParams "add"
          { Name := "net0", Typ := "remote", Remote := "http://127.0.0.1:80/?x=1",
            ID := "pool1", Scope := "blue" } "0.3.1" "abc"))) =
      [("x", "1?cmd=add"), ("containerid", "pool1/abc"), ("scope", "blue"),
       ("version", "0.3.1")] ∧
    (client.cmdAdd demo.clientEnv (client.wire false demo.env demo.conf)
        demo.argsQuery demo.emptyWorld).1 =
      some "failed to call remote <http://127.0.0.1:80/?x=1>: unexpected status code 404" ∧
    (client.cmdAdd demo.clientEnv (client.wire false demo.env demo.conf)
        demo.argsQuery demo.emptyWorld).2.calls = [] ∧
    ((demo.clientEnv.unmarshalNet demo.argsFragment.StdinData).toOption =
      some { Name := "net0", CNIVersion := "0.3.1",
             IPAM := some { Name := "", Typ := "remote",
                            Remote := "http://127.0.0.1:80/#top",
                            ID := "pool1", Scope := "blue" } }) ∧
    (client.cmdAdd demo.clientEnv (client.wire false demo.env demo.conf)
        demo.argsFragment demo.emptyWorld).1 =
      some "failed to call remote <http://127.0.0.1:80/#top>: unexpected status code 400" := by
  decide

end RemoteIPAM
